import Mathlib

/-!
The nullroute-irc gateway: a verification development

A shallow embedding of `gateway/cmd/gateway/main.go` (the rate limiter, the
nickname derivation, the command router, the session registry and the
upstream message translator), followed by theorems about it.

Conventions of the embedding

* A Go `string` is its sequence of bytes, `GoString = List Nat` (a real string
  has every element below 256; the theorems quantify over all lists, which
  covers every real string, and every concrete input used below is ASCII).
  `len`, slicing and `+` are the byte operations of Go.
* `for i, r := range s` decodes UTF-8 as the Go language prescribes
  (`decodeRune`, `runes`): an invalid byte yields U+FFFD and advances by one.
* A Go `int` is an `Int`. The limiter is given twice: in exact arithmetic
  (`RateLimiter`, rational clock readings in seconds, no rounding), which is
  the reading of every statement that stipulates exact arithmetic, and in
  binary64 (`RateLimiter64`, the clock in nanoseconds, every operation
  rounded), which is what the program computes.
* A run-time panic (index or slice out of range) is the result `none`.
* Whatever the environment answers during a call (the clock, the outcome of
  dialling and of a transport write) is an explicit input, `Env`.
-/

namespace Gateway

/-! ## Go strings -/

/-- A Go string: its bytes. -/
abbrev GoString := List Nat

/-- The bytes of an ASCII string literal of the source. -/
def lit (s : String) : GoString := s.toList.map Char.toNat

/-- Go's `s[lo:hi]`: panics (`none`) unless `0 ≤ lo ≤ hi ≤ len(s)`. -/
def goSlice {α : Type} (s : List α) (lo hi : Int) : Option (List α) :=
  if 0 ≤ lo ∧ lo ≤ hi ∧ hi ≤ (s.length : Int) then
    some ((s.take hi.toNat).drop lo.toNat)
  else none

/-- Go's `s[i]`: panics (`none`) unless `0 ≤ i < len(s)`. -/
def goIndex {α : Type} (s : List α) (i : Int) : Option α :=
  if 0 ≤ i then s.get? i.toNat else none

/-- The rune Go reports for an invalid UTF-8 byte. -/
def runeError : Nat := 0xFFFD

/-- Go's `utf8.DecodeRuneInString` on a non-empty string: the first rune and its
width in bytes; an invalid or truncated encoding gives `(U+FFFD, 1)`. -/
def decodeRune : GoString → Nat × Nat
  | [] => (runeError, 0)
  | b0 :: rest =>
    if b0 < 0x80 then (b0, 1)
    else if 0xC2 ≤ b0 ∧ b0 ≤ 0xDF then
      match rest with
      | b1 :: _ =>
        if 0x80 ≤ b1 ∧ b1 ≤ 0xBF then (b0 % 32 * 64 + b1 % 64, 2) else (runeError, 1)
      | [] => (runeError, 1)
    else if 0xE0 ≤ b0 ∧ b0 ≤ 0xEF then
      match rest with
      | b1 :: b2 :: _ =>
        if (if b0 = 0xE0 then 0xA0 else 0x80) ≤ b1 ∧ b1 ≤ (if b0 = 0xED then 0x9F else 0xBF)
            ∧ 0x80 ≤ b2 ∧ b2 ≤ 0xBF then
          (b0 % 16 * 4096 + b1 % 64 * 64 + b2 % 64, 3)
        else (runeError, 1)
      | _ => (runeError, 1)
    else if 0xF0 ≤ b0 ∧ b0 ≤ 0xF4 then
      match rest with
      | b1 :: b2 :: b3 :: _ =>
        if (if b0 = 0xF0 then 0x90 else 0x80) ≤ b1 ∧ b1 ≤ (if b0 = 0xF4 then 0x8F else 0xBF)
            ∧ 0x80 ≤ b2 ∧ b2 ≤ 0xBF ∧ 0x80 ≤ b3 ∧ b3 ≤ 0xBF then
          (b0 % 8 * 262144 + b1 % 64 * 4096 + b2 % 64 * 64 + b3 % 64, 4)
        else (runeError, 1)
      | _ => (runeError, 1)
    else (runeError, 1)

/-- The iteration of `for i, r := range s`: at a rune start (`skip = 0`) decode
and yield `(i, r)`, then pass over the remaining `width - 1` bytes of the rune. -/
def runesFrom : Nat → Nat → GoString → List (Nat × Nat)
  | _, _, [] => []
  | 0, i, b :: rest =>
    (i, (decodeRune (b :: rest)).1) :: runesFrom ((decodeRune (b :: rest)).2 - 1) (i + 1) rest
  | skip + 1, i, _ :: rest => runesFrom skip (i + 1) rest

/-- The pairs `(byte index, rune)` that `for i, r := range s` visits, in order. -/
def runes (s : GoString) : List (Nat × Nat) := runesFrom 0 0 s

/-- Go's `string(r)` for a rune: its UTF-8 encoding (U+FFFD for a surrogate or
an out-of-range value). -/
def encodeRune (r : Nat) : GoString :=
  if r < 0x80 then [r]
  else if r < 0x800 then [0xC0 + r / 64, 0x80 + r % 64]
  else if (0xD800 ≤ r ∧ r ≤ 0xDFFF) ∨ 0x10FFFF < r then [0xEF, 0xBF, 0xBD]
  else if r < 0x10000 then [0xE0 + r / 4096, 0x80 + r / 64 % 64, 0x80 + r % 64]
  else [0xF0 + r / 262144, 0x80 + r / 4096 % 64, 0x80 + r / 64 % 64, 0x80 + r % 64]

/-- Go's `%d` for an `int`: decimal digits, with a leading `-` when negative. -/
def fmtInt : Int → GoString
  | Int.ofNat n => (Nat.toDigits 10 n).map Char.toNat
  | Int.negSucc n => 45 :: (Nat.toDigits 10 (n + 1)).map Char.toNat

/-! ## Rate limiter (`RateLimiter`, `NewRateLimiter`, `Allow`) -/

/-- The struct `RateLimiter`, in exact arithmetic (its mutex makes every `Allow`
atomic, so calls are modelled one after another). -/
structure RateLimiter where
  tokens : ℚ
  maxTokens : ℚ
  refillRate : ℚ
  lastRefill : ℚ

/-- `NewRateLimiter(rate, burst)` in exact arithmetic: `float64(burst)` is the
integer itself; `now` is the reading of `time.Now()`, in seconds. The program's
own conversion is `NewRateLimiter64`. -/
def NewRateLimiter (rate : ℚ) (burst : Int) (now : ℚ) : RateLimiter :=
  { tokens := (burst : ℚ), maxTokens := (burst : ℚ), refillRate := rate, lastRefill := now }

/-- `(*RateLimiter).Allow` in exact arithmetic: the sum, the product and the
subtraction are not rounded; `now` is the reading of `time.Now()`, in seconds.
Returns the limiter after the call and the boolean answer. The program's own
rounded arithmetic is `RateLimiter64.Allow`. -/
def RateLimiter.Allow (r : RateLimiter) (now : ℚ) : RateLimiter × Bool :=
  let elapsed := now - r.lastRefill
  let tokens := min r.maxTokens (r.tokens + elapsed * r.refillRate)
  if tokens ≥ 1 then
    ({ r with tokens := tokens - 1, lastRefill := now }, true)
  else
    ({ r with tokens := tokens, lastRefill := now }, false)

/-- A sequence of `Allow` calls, one per clock reading: the limiter afterwards
and the answers in call order. -/
def allowSeq : RateLimiter → List ℚ → RateLimiter × List Bool
  | r, [] => (r, [])
  | r, t :: ts =>
    ((allowSeq (r.Allow t).1 ts).1, (r.Allow t).2 :: (allowSeq (r.Allow t).1 ts).2)

/-! ## Rate limiter, float64 reading

The definitions above read the limiter in exact arithmetic, which is what the
statements that stipulate exact arithmetic are about. The definitions of this
section read the same three source lines with the arithmetic the program
performs: binary64 values, every conversion and operation rounded to nearest
with ties to even, the clock in whole nanoseconds. Only finite values are
represented (no infinity, no NaN, no negative zero, no overflow past the
largest binary64 value); none arises in the evaluations made with them. Each
operation is rounded on its own, as the compiler does on amd64. -/

/-- A finite float64 value, the number `m * 2 ^ e`. -/
structure F64 where
  m : Int
  e : Int
deriving DecidableEq

/-- The number a float64 value stands for. -/
def F64.toRat (x : F64) : ℚ := (x.m : ℚ) * (2 : ℚ) ^ x.e

/-- Number of binary digits of `n`, found by at most `fuel` halvings. -/
def bitsAux : Nat → Nat → Nat
  | 0, _ => 0
  | fuel + 1, n => if n = 0 then 0 else bitsAux fuel (n / 2) + 1

/-- Number of binary digits of `n` (for `n > 0`, `2 ^ (bits n - 1) ≤ n < 2 ^ bits n`). -/
def bits (n : Nat) : Nat := bitsAux n n

/-- Rounding of the positive ratio `a / d` to binary64: `lg` is the integer part
of its binary logarithm (`bits a - bits d` or one less), the unit `2 ^ e` leaves
a 53-bit significand and is never below the smallest subnormal `2 ^ -1074`, and
the result is the multiple of the unit nearest to `a / d`, the even multiple
when two are equally near (written with the significand `2 ^ 52` when the
rounding carries to `2 ^ 53`, and as `0 * 2 ^ 0` when it is zero). -/
def roundPos (a d : Nat) : F64 :=
  let k : Int := (bits a : Int) - (bits d : Int)
  let lg : Int :=
    if (if 0 ≤ k then d * 2 ^ k.toNat ≤ a else d ≤ a * 2 ^ (-k).toNat) then k else k - 1
  let e : Int := max (lg - 52) (-1074)
  let num : Nat := if e < 0 then a * 2 ^ (-e).toNat else a
  let den : Nat := if e < 0 then d else d * 2 ^ e.toNat
  let q := num / den
  let r := num % den
  let q1 : Nat := if den < 2 * r ∨ (2 * r = den ∧ q % 2 = 1) then q + 1 else q
  if q1 = 2 ^ 53 then ⟨2 ^ 52, e + 1⟩ else if q1 = 0 then ⟨0, 0⟩ else ⟨(q1 : Int), e⟩

/-- Rounding of the ratio `n / d` (with `d > 0`) to binary64. -/
def F64.round (n : Int) (d : Nat) : F64 :=
  if n = 0 then ⟨0, 0⟩
  else if n < 0 then ⟨-(roundPos n.natAbs d).m, (roundPos n.natAbs d).e⟩
  else roundPos n.natAbs d

/-- Numerator of the value over the denominator `F64.den`. -/
def F64.num (x : F64) : Int := if 0 ≤ x.e then x.m * 2 ^ x.e.toNat else x.m

/-- Denominator of the value: `x.toRat = x.num / x.den`. -/
def F64.den (x : F64) : Nat := if 0 ≤ x.e then 1 else 2 ^ (-x.e).toNat

/-- The conversion `float64(n)` of an integer. -/
def float64 (n : Int) : F64 := F64.round n 1

/-- The float64 sum `x + y`. -/
def F64.add (x y : F64) : F64 := F64.round (x.num * y.den + y.num * x.den) (x.den * y.den)

/-- The float64 difference `x - y`. -/
def F64.sub (x y : F64) : F64 := F64.round (x.num * y.den - y.num * x.den) (x.den * y.den)

/-- The float64 product `x * y`. -/
def F64.mul (x y : F64) : F64 := F64.round (x.num * y.num) (x.den * y.den)

/-- The float64 quotient `x / y`, for `y` other than zero. -/
def F64.div (x y : F64) : F64 :=
  if y.num < 0 then F64.round (-(x.num * y.den)) (x.den * y.num.natAbs)
  else F64.round (x.num * y.den) (x.den * y.num.natAbs)

/-- The comparison `x <= y`. -/
def F64.le (x y : F64) : Bool := decide (x.num * y.den ≤ y.num * x.den)

/-- `math.Min(x, y)` on finite values. -/
def F64.min (x y : F64) : F64 := if x.le y then x else y

/-- The struct `RateLimiter` as the program stores it: three float64 fields and
the clock reading of the last refill, in nanoseconds. -/
structure RateLimiter64 where
  tokens : F64
  maxTokens : F64
  refillRate : F64
  lastRefill : Int

/-- `NewRateLimiter(rate, burst)` in float64; `now` is the reading of
`time.Now()` in nanoseconds. -/
def NewRateLimiter64 (rate : F64) (burst : Int) (now : Int) : RateLimiter64 :=
  { tokens := float64 burst, maxTokens := float64 burst, refillRate := rate, lastRefill := now }

/-- `t.Sub(u)` of package `time`: the difference in nanoseconds as an int64
`Duration`, kept within the int64 range. -/
def timeSub (t u : Int) : Int := max (-(2 ^ 63)) (min (2 ^ 63 - 1) (t - u))

/-- `Duration.Seconds` of package `time`:
`float64(d / Second) + float64(d % Second) / 1e9`, with Go's truncating integer
division. -/
def Seconds (d : Int) : F64 :=
  F64.add (float64 (d.tdiv 1000000000))
    (F64.div (float64 (d.tmod 1000000000)) (float64 1000000000))

/-- `(*RateLimiter).Allow` in float64; `now` is the reading of `time.Now()` in
nanoseconds. Returns the limiter after the call and the boolean answer. -/
def RateLimiter64.Allow (r : RateLimiter64) (now : Int) : RateLimiter64 × Bool :=
  let elapsed := Seconds (timeSub now r.lastRefill)
  let tokens := F64.min r.maxTokens (F64.add r.tokens (F64.mul elapsed r.refillRate))
  if (float64 1).le tokens then
    ({ r with tokens := F64.sub tokens (float64 1), lastRefill := now }, true)
  else
    ({ r with tokens := tokens, lastRefill := now }, false)

/-! ## Data model -/

/-- A framed upstream message (`irc.Message`): tags, the prefix fields (the
parser always allocates the prefix, empty when the line has none), the command
and the parameters. -/
structure Message where
  Tags : List (GoString × GoString)
  Name : GoString
  User : GoString
  Host : GoString
  Command : GoString
  Params : List GoString

/-- A value of an event payload. -/
inductive Value where
  | str (s : GoString)
  | strs (l : List GoString)
  | message (m : Message)

/-- The struct `Event`; `Data` is `none` for a `nil` payload, else the entries
of the payload map. -/
structure Event where
  Type_ : GoString
  Data : Option (List (GoString × Value))
  UserID : Int

/-- The outcome of `json.Unmarshal(cmd.Data, &data)` into the struct the
command type selects: the decoded fields (a field the payload lacks is `""`). -/
structure Fields where
  Username : GoString
  Channel : GoString
  Message : GoString
  Target : GoString
  Nick : GoString
  Topic : GoString
  Reason : GoString

/-- The struct `Command`; `Data` is `none` when `json.Unmarshal` of the payload
returns an error. -/
structure Command where
  Type_ : GoString
  Data : Option Fields
  UserID : Int

/-- The struct `IRCSession`, with the observable state of what it owns: whether
`cancel()` and `Conn.Close()` have been called, the lines that were passed to
`WriteLine`, and the lines that were handed to the transport (`Client.Write`). -/
structure IRCSession where
  UserID : Int
  Username : GoString
  Nick : GoString
  rateLimiter : RateLimiter
  cancelled : Bool
  connClosed : Bool
  writeLineCalls : List GoString
  written : List GoString

/-- The state of the process: every session allocated so far (a `*IRCSession`
is its position in `heap`), the global map `sessions`, and the events passed
to the bus, oldest first. -/
structure World where
  heap : List IRCSession
  sessions : Int → Option Nat
  events : List Event

/-- The environment's answers during one call: the clock, the error of
`tls.Dial`/`net.Dial` (if any) and the error of `Client.Write` (if any). -/
structure Env where
  now : ℚ
  dialErr : Option GoString
  writeErr : Option GoString

/-- The state at start-up: no session, empty map, nothing published. -/
def World.init : World := { heap := [], sessions := fun _ => none, events := [] }

/-- The function `publishEvent`: the event is handed to the bus. -/
def publishEvent (userID : Int) (eventType : GoString) (data : Option (List (GoString × Value)))
    (w : World) : World :=
  { w with events := w.events ++ [{ Type_ := eventType, Data := data, UserID := userID }] }

/-! ## Nickname derivation (`sanitizeNick`, `createSession` lines 270-276) -/

/-- The string `allowed` of `sanitizeNick`, as the runes `range allowed` visits
(the literal is ASCII, so its runes are its bytes). -/
def allowed : List Nat :=
  lit "abcdefghijklmnopqrstuvwxyzABCDEFGHIJKLMNOPQRSTUVWXYZ0123456789[]\\`^\x7b\x7d-"

/-- The inner loop of `sanitizeNick`: scan `allowed`; at the first `a` equal to
`r`, append `string(r)` to `result` and `break`. -/
def sanitizeInner (r : Nat) : List Nat → GoString → GoString
  | [], result => result
  | a :: as, result => if r = a then result ++ encodeRune r else sanitizeInner r as result

/-- The function `sanitizeNick`. -/
def sanitizeNick (username : GoString) : GoString :=
  (runes username).foldl (fun result ir => sanitizeInner ir.2 allowed result) []

/-- The nickname `createSession` hands to the client: `sanitizeNick`, cut to 9
bytes when longer, replaced by `"user" + userID` when empty. The slice is taken
under its guard and never panics (`goSlice_nine`). -/
def createSessionNick (userID : Int) (username : GoString) : GoString :=
  let nick := sanitizeNick username
  let nick := if nick.length > 9 then (goSlice nick 0 9).getD [] else nick
  if nick = [] then lit "user" ++ fmtInt userID else nick


/-! ## Sessions (`createSession`, `WriteLine`, the read loop) -/

/-- The literal `&IRCSession{...}` of `createSession`: the fresh session, with
its limiter `NewRateLimiter(1.0, 5)`, not cancelled, transport open. -/
def newSession (env : Env) (userID : Int) (username nick : GoString) : IRCSession :=
  { UserID := userID, Username := username, Nick := nick,
    rateLimiter := NewRateLimiter 1 5 env.now,
    cancelled := false, connClosed := false, writeLineCalls := [], written := [] }

/-- The function `createSession`: returns the state afterwards and the error, if
any. When dialling fails only the fresh context is cancelled and nothing is
registered. -/
def createSession (env : Env) (userID : Int) (username : GoString) (w : World) :
    World × Option GoString :=
  let nick := createSessionNick userID username
  match env.dialErr with
  | some e => (w, some (lit "IRC connection failed: " ++ e))
  | none =>
    let sess := newSession env userID username nick
    ({ w with heap := w.heap ++ [sess],
              sessions := Function.update w.sessions userID (some w.heap.length) }, none)

/-- The failure exit of the goroutine started by `createSession` for the session
at `p` (`client.Run()` returned `err`) is modelled statement by statement, with
the values the closure captured; the goroutine holds no lock, so steps of the
command loop can run between any two of its statements. First statement:
`publishEvent(userID, "irc:error", ...)`. -/
def readLoopFailPublish (p : Nat) (err : GoString) (w : World) : World :=
  match w.heap[p]? with
  | none => w
  | some s => publishEvent s.UserID (lit "irc:error") (some [(lit "message", Value.str err)]) w

/-- Second statement of the failure exit: `conn.Close()`. -/
def readLoopFailClose (p : Nat) (w : World) : World :=
  match w.heap[p]? with
  | none => w
  | some s => { w with heap := w.heap.set p { s with connClosed := true } }

/-- Third statement of the failure exit: `cancel()`. -/
def readLoopFailCancel (p : Nat) (w : World) : World :=
  match w.heap[p]? with
  | none => w
  | some s => { w with heap := w.heap.set p { s with cancelled := true } }

/-- Fourth statement of the failure exit: `delete(sessions, userID)`. -/
def readLoopFailDelete (p : Nat) (w : World) : World :=
  match w.heap[p]? with
  | none => w
  | some s => { w with sessions := Function.update w.sessions s.UserID none }

/-- The failure exit run from its first statement to its last with no other step
in between. -/
def readLoopFail (p : Nat) (err : GoString) (w : World) : World :=
  readLoopFailDelete p (readLoopFailCancel p (readLoopFailClose p (readLoopFailPublish p err w)))

/-- `(*IRCSession).WriteLine`: the session afterwards and the returned error. -/
def IRCSession.WriteLine (s : IRCSession) (env : Env) (line : GoString) :
    IRCSession × Option GoString :=
  let s1 := { s with rateLimiter := (s.rateLimiter.Allow env.now).1,
                     writeLineCalls := s.writeLineCalls ++ [line] }
  if (s.rateLimiter.Allow env.now).2 = false then
    (s1, some (lit "rate limit exceeded - slow down"))
  else
    ({ s1 with written := s1.written ++ [line] }, env.writeErr)

/-! ## Command router (`handleCommand`) -/

/-- The closure `writeOrError` of `handleCommand`, for the session at `p`. -/
def writeOrError (env : Env) (userID : Int) (p : Nat) (line : GoString) (w : World) : World :=
  match w.heap[p]? with
  | none => w
  | some sess =>
    let w1 := { w with heap := w.heap.set p (sess.WriteLine env line).1 }
    match (sess.WriteLine env line).2 with
    | some err => publishEvent userID (lit "irc:error") (some [(lit "message", Value.str err)]) w1
    | none => w1

/-- The function `handleCommand`. In the `disconnect` case `sess.cancel` and
`sess.Conn` are never `nil` (a session is only ever built by `createSession`,
after a successful dial), so both are called. -/
def handleCommand (env : Env) (cmd : Command) (w : World) : World :=
  if cmd.Type_ = lit "connect" then
    match cmd.Data with
    | some data =>
      match (createSession env cmd.UserID data.Username w).2 with
      | some err =>
        publishEvent cmd.UserID (lit "irc:error") (some [(lit "message", Value.str err)])
          (createSession env cmd.UserID data.Username w).1
      | none => (createSession env cmd.UserID data.Username w).1
    | none => w
  else
    match w.sessions cmd.UserID with
    | none => w
    | some p =>
      if cmd.Type_ = lit "join" then
        match cmd.Data with
        | some data => writeOrError env cmd.UserID p (lit "JOIN " ++ data.Channel) w
        | none => w
      else if cmd.Type_ = lit "part" then
        match cmd.Data with
        | some data =>
          let msg := lit "PART " ++ data.Channel
          let msg := if data.Message ≠ [] then msg ++ (lit " :" ++ data.Message) else msg
          writeOrError env cmd.UserID p msg w
        | none => w
      else if cmd.Type_ = lit "send_message" then
        match cmd.Data with
        | some data =>
          writeOrError env cmd.UserID p
            (lit "PRIVMSG " ++ data.Target ++ lit " :" ++ data.Message) w
        | none => w
      else if cmd.Type_ = lit "change_nick" then
        match cmd.Data with
        | some data => writeOrError env cmd.UserID p (lit "NICK " ++ data.Nick) w
        | none => w
      else if cmd.Type_ = lit "set_topic" then
        match cmd.Data with
        | some data =>
          let msg := lit "TOPIC " ++ data.Channel
          let msg := if data.Topic ≠ [] then msg ++ (lit " :" ++ data.Topic) else msg
          writeOrError env cmd.UserID p msg w
        | none => w
      else if cmd.Type_ = lit "kick" then
        match cmd.Data with
        | some data =>
          let msg := lit "KICK " ++ data.Channel ++ lit " " ++ data.Nick
          let msg := if data.Reason ≠ [] then msg ++ (lit " :" ++ data.Reason) else msg
          writeOrError env cmd.UserID p msg w
        | none => w
      else if cmd.Type_ = lit "invite" then
        match cmd.Data with
        | some data =>
          writeOrError env cmd.UserID p (lit "INVITE " ++ data.Nick ++ lit " " ++ data.Channel) w
        | none => w
      else if cmd.Type_ = lit "whois" then
        match cmd.Data with
        | some data => writeOrError env cmd.UserID p (lit "WHOIS " ++ data.Nick) w
        | none => w
      else if cmd.Type_ = lit "list_channels" then
        writeOrError env cmd.UserID p (lit "LIST") w
      else if cmd.Type_ = lit "get_nicklist" then
        match cmd.Data with
        | some data => writeOrError env cmd.UserID p (lit "NAMES " ++ data.Channel) w
        | none => w
      else if cmd.Type_ = lit "disconnect" then
        match w.heap[p]? with
        | none => w
        | some sess =>
          publishEvent cmd.UserID (lit "irc:disconnected") none
            { w with heap := w.heap.set p { sess with cancelled := true, connClosed := true },
                     sessions := Function.update w.sessions cmd.UserID none }
      else w

/-! ## Upstream message translator (`handleIRCMessage`, `parseNames`, `splitNames`) -/

/-- One iteration of the loop of `splitNames` on the state `(result, start)`,
for the pair `(i, r)`. -/
def splitNamesStep (s : GoString) (st : Option (List GoString × Int)) (ir : Nat × Nat) :
    Option (List GoString × Int) :=
  st.bind fun st =>
    if ir.2 = 32 then
      if st.2 < (ir.1 : Int) then
        (goSlice s st.2 ir.1).map fun piece => (st.1 ++ [piece], (ir.1 : Int) + 1)
      else some (st.1, (ir.1 : Int) + 1)
    else some st

/-- The function `splitNames`. -/
def splitNames (s : GoString) : Option (List GoString) :=
  ((runes s).foldl (splitNamesStep s) (some ([], 0))).bind fun st =>
    if st.2 < (s.length : Int) then
      (goSlice s st.2 s.length).map fun piece => st.1 ++ [piece]
    else some st.1

/-- The function `parseNames`: copies the elements of `splitNames`. -/
def parseNames (namesStr : GoString) : Option (List GoString) :=
  (splitNames namesStr).map fun l => l.foldl (fun names name => names ++ [name]) []

/-- The expression `isAction` of the `PRIVMSG` case, with Go's short-circuit
evaluation of `&&`. -/
def isAction (message : GoString) : Option Bool :=
  if message.length ≥ 8 then
    (goSlice message 0 1).bind fun head =>
      if head = [1] then
        (goSlice message ((message.length : Int) - 1) message.length).map fun tail =>
          decide (tail = [1])
      else some false
  else some false

/-- The function `handleIRCMessage`; `now` is `time.Now().Format(time.RFC3339)`. -/
def handleIRCMessage (now : GoString) (userID : Int) (msg : Message) (w : World) : Option World :=
  if msg.Command = lit "PRIVMSG" then
    if msg.Params.length < 2 then some w
    else
      (goIndex msg.Params 0).bind fun target =>
      (goIndex msg.Params 1).bind fun message =>
      (isAction message).bind fun act =>
        if act then
          (goSlice message 8 ((message.length : Int) - 1)).map fun message =>
            publishEvent userID (lit "irc:action")
              (some [(lit "nick", Value.str msg.Name), (lit "target", Value.str target),
                     (lit "message", Value.str message), (lit "time", Value.str now)]) w
        else
          some (publishEvent userID (lit "irc:message")
            (some [(lit "nick", Value.str msg.Name), (lit "target", Value.str target),
                   (lit "message", Value.str message), (lit "time", Value.str now)]) w)
  else if msg.Command = lit "JOIN" then
    if msg.Params.length < 1 then some w
    else
      (goIndex msg.Params 0).map fun channel =>
        let w1 :=
          if msg.Name = [] then
            publishEvent userID (lit "irc:joined") (some [(lit "channel", Value.str channel)]) w
          else w
        publishEvent userID (lit "irc:user_join")
          (some [(lit "channel", Value.str channel), (lit "nick", Value.str msg.Name)]) w1
  else if msg.Command = lit "PART" then
    if msg.Params.length < 1 then some w
    else
      (goIndex msg.Params 0).bind fun channel =>
      (if msg.Params.length > 1 then goIndex msg.Params 1 else some []).map fun reason =>
        publishEvent userID (lit "irc:user_part")
          (some [(lit "channel", Value.str channel), (lit "nick", Value.str msg.Name),
                 (lit "message", Value.str reason)]) w
  else if msg.Command = lit "NICK" then
    if msg.Params.length < 1 then some w
    else
      (goIndex msg.Params 0).map fun newNick =>
        publishEvent userID (lit "irc:nick_change")
          (some [(lit "oldNick", Value.str msg.Name), (lit "newNick", Value.str newNick)]) w
  else if msg.Command = lit "TOPIC" then
    if msg.Params.length < 1 then some w
    else
      (goIndex msg.Params 0).bind fun channel =>
      (if msg.Params.length > 1 then goIndex msg.Params 1 else some []).map fun topic =>
        publishEvent userID (lit "irc:topic")
          (some [(lit "channel", Value.str channel), (lit "topic", Value.str topic),
                 (lit "nick", Value.str msg.Name)]) w
  else if msg.Command = lit "353" then
    if msg.Params.length < 4 then some w
    else
      (goIndex msg.Params 2).bind fun channel =>
      (goIndex msg.Params 3).bind fun names =>
      (parseNames names).map fun parsed =>
        publishEvent userID (lit "irc:nicklist")
          (some [(lit "channel", Value.str channel), (lit "names", Value.strs parsed)]) w
  else if msg.Command = lit "NOTICE" then
    if msg.Params.length < 2 then some w
    else
      (goIndex msg.Params 1).bind fun message =>
      (goIndex msg.Params 0).map fun target =>
        publishEvent userID (lit "irc:notice")
          (some [(lit "nick", Value.str msg.Name), (lit "message", Value.str message),
                 (lit "target", Value.str target)]) w
  else if msg.Command = lit "311" ∨ msg.Command = lit "312" ∨ msg.Command = lit "313"
      ∨ msg.Command = lit "317" ∨ msg.Command = lit "318" then
    if msg.Params.length < 2 then some w
    else
      (goIndex msg.Params 1).map fun nick =>
        publishEvent userID (lit "irc:whois")
          (some [(lit "nick", Value.str nick), (lit "data", Value.message msg)]) w
  else if msg.Command = lit "322" then
    if msg.Params.length < 3 then some w
    else
      (goIndex msg.Params 1).bind fun channel =>
      (goIndex msg.Params 2).bind fun users =>
      (if msg.Params.length > 3 then goIndex msg.Params 3 else some []).map fun topic =>
        publishEvent userID (lit "irc:channel_list_item")
          (some [(lit "channel", Value.str channel), (lit "users", Value.str users),
                 (lit "topic", Value.str topic)]) w
  else if msg.Command = lit "323" then
    some (publishEvent userID (lit "irc:channel_list_end") none w)
  else some w

/-- The `Handler` closure that `createSession` gives the client, run by the read
loop on every upstream message; `currentNick` is the answer of
`c.CurrentNick()`. -/
def onMessage (now currentNick : GoString) (userID : Int) (m : Message) (w : World) :
    Option World :=
  handleIRCMessage now userID m
    (if m.Command = lit "001" then
      publishEvent userID (lit "irc:connected") (some [(lit "nick", Value.str currentNick)]) w
    else w)

/-! ## Predicates used to state the properties -/

/-- The allowed nickname characters, as the specification lists them: ASCII
lower-case and upper-case letters, ASCII digits, and `[ ] \ ` ^ { } -`. -/
def isAllowedRune (c : Nat) : Bool :=
  (97 ≤ c && c ≤ 122) || (65 ≤ c && c ≤ 90) || (48 ≤ c && c ≤ 57)
    || c = 91 || c = 93 || c = 92 || c = 96 || c = 94 || c = 123 || c = 125 || c = 45

/-- A text of exactly 8 bytes whose first and last byte are `\x01` (for
instance `\x01ACTION\x01`). -/
def shortAction (text : GoString) : Prop :=
  text.length = 8 ∧ text.take 1 = [1] ∧ text.drop 7 = [1]

/-- Calls spaced as the specification's rate-limiter property says: the first
call at or after the creation time `t0`, every later call at least one second
after the call before it. -/
def spacedFrom (t0 : ℚ) : List ℚ → Prop
  | [] => True
  | t :: ts => t0 ≤ t ∧ List.Chain (fun a b => a + 1 ≤ b) t ts

/-- Successive calls of `createSession` for one user id, each with its own
environment and user name. -/
def createAll (userID : Int) : List (Env × GoString) → World → World
  | [], w => w
  | c :: cs, w => createAll userID cs (createSession c.1 userID c.2 w).1

/-- An environment in which dialling and transport writes succeed. -/
def quietEnv (now : ℚ) : Env := { now := now, dialErr := none, writeErr := none }

/-- A payload with every field empty. -/
def noFields : Fields :=
  { Username := [], Channel := [], Message := [], Target := [], Nick := [], Topic := [],
    Reason := [] }

/-- A string without carriage return (13) and without line feed (10). -/
def noCRLF (s : GoString) : Prop := 13 ∉ s ∧ 10 ∉ s

/-- Every field a wire line is built from is free of carriage return and line
feed. -/
def Fields.noCRLF (d : Fields) : Prop :=
  Gateway.noCRLF d.Channel ∧ Gateway.noCRLF d.Message ∧ Gateway.noCRLF d.Target
    ∧ Gateway.noCRLF d.Nick ∧ Gateway.noCRLF d.Topic ∧ Gateway.noCRLF d.Reason

/-- The wire grammar as the specification gives it: the line of a command type
and its decoded payload, `none` when the type builds no line or the payload it
needs did not decode. -/
def wireLine (ty : GoString) (data : Option Fields) : Option GoString :=
  if ty = lit "list_channels" then some (lit "LIST")
  else
    match data with
    | none => none
    | some d =>
      if ty = lit "join" then some (lit "JOIN " ++ d.Channel)
      else if ty = lit "part" then
        some (lit "PART " ++ d.Channel ++ (if d.Message = [] then [] else lit " :" ++ d.Message))
      else if ty = lit "send_message" then
        some (lit "PRIVMSG " ++ d.Target ++ lit " :" ++ d.Message)
      else if ty = lit "change_nick" then some (lit "NICK " ++ d.Nick)
      else if ty = lit "set_topic" then
        some (lit "TOPIC " ++ d.Channel ++ (if d.Topic = [] then [] else lit " :" ++ d.Topic))
      else if ty = lit "kick" then
        some (lit "KICK " ++ d.Channel ++ lit " " ++ d.Nick
          ++ (if d.Reason = [] then [] else lit " :" ++ d.Reason))
      else if ty = lit "invite" then some (lit "INVITE " ++ d.Nick ++ lit " " ++ d.Channel)
      else if ty = lit "whois" then some (lit "WHOIS " ++ d.Nick)
      else if ty = lit "get_nicklist" then some (lit "NAMES " ++ d.Channel)
      else none

/-- The command types that build a wire line. -/
def wireTypes : List GoString :=
  [lit "join", lit "part", lit "change_nick", lit "set_topic", lit "kick", lit "invite",
   lit "whois", lit "list_channels", lit "get_nicklist", lit "send_message"]

/-- The text of the error `WriteLine` returns when the limiter denies. -/
def rateLimitMessage : GoString := lit "rate limit exceeded - slow down"

/-- A `send_message` command of user 7: `hi` to `#go`. -/
def sendHi : Command :=
  { Type_ := lit "send_message",
    Data := some { noFields with Target := lit "#go", Message := lit "hi" }, UserID := 7 }

/-- The state after user 7 connected at time 0 and then sent `sendHi` `n` times
with no time elapsed. -/
def afterSends : Nat → World
  | 0 => (createSession (quietEnv 0) 7 (lit "alice") World.init).1
  | n + 1 => handleCommand (quietEnv 0) sendHi (afterSends n)

/-- A `join` command of user 7 whose channel carries a line break followed by
a second protocol command. -/
def joinWithLineBreak : Command :=
  { Type_ := lit "join",
    Data := some { noFields with Channel := lit "#a" ++ [13, 10] ++ lit "QUIT" }, UserID := 7 }

/-- The `irc:error` event `handleCommand` publishes for an error message. -/
def errorEvent (userID : Int) (message : GoString) : Event :=
  { Type_ := lit "irc:error", Data := some [(lit "message", Value.str message)],
    UserID := userID }

/-- A `join` of `#go` for user 7. -/
def joinGo : Command :=
  { Type_ := lit "join", Data := some { noFields with Channel := lit "#go" }, UserID := 7 }

/-- An upstream message with the given source name, command and parameters
(no tags, no user, no host). -/
def upstream (name command : GoString) (params : List GoString) : Message :=
  { Tags := [], Name := name, User := [], Host := [], Command := command, Params := params }

/-- The parameter list of an upstream message is shorter than its type requires:
`PRIVMSG` and `NOTICE` need 2 parameters, `JOIN`, `PART`, `NICK` and `TOPIC` need
1, `353` needs 4, the WHOIS numerics `311`, `312`, `313`, `317`, `318` need 2 and
`322` needs 3. -/
def underLength (msg : Message) : Prop :=
  ((msg.Command = lit "PRIVMSG" ∨ msg.Command = lit "NOTICE") ∧ msg.Params.length < 2)
    ∨ ((msg.Command = lit "JOIN" ∨ msg.Command = lit "PART" ∨ msg.Command = lit "NICK"
          ∨ msg.Command = lit "TOPIC") ∧ msg.Params.length < 1)
    ∨ (msg.Command = lit "353" ∧ msg.Params.length < 4)
    ∨ ((msg.Command = lit "311" ∨ msg.Command = lit "312" ∨ msg.Command = lit "313"
          ∨ msg.Command = lit "317" ∨ msg.Command = lit "318") ∧ msg.Params.length < 2)
    ∨ (msg.Command = lit "322" ∧ msg.Params.length < 3)

/-- The upstream message types `handleIRCMessage` has a case for. -/
def handledCommands : List GoString :=
  [lit "PRIVMSG", lit "JOIN", lit "PART", lit "NICK", lit "TOPIC", lit "353", lit "NOTICE",
   lit "311", lit "312", lit "313", lit "317", lit "318", lit "322", lit "323"]

/-- Handling `cmd` in state `w` makes exactly one `WriteLine` call, on the session
at `p` (which was `sess`) and with the string `line`: the record of that
session's `WriteLine` calls grows by `line` alone and no other session is
touched. -/
def oneWriteLine (env : Env) (cmd : Command) (w : World) (p : Nat) (sess : IRCSession)
    (line : GoString) : Prop :=
  (∃ sess1 : IRCSession, (handleCommand env cmd w).heap[p]? = some sess1
      ∧ sess1.writeLineCalls = sess.writeLineCalls ++ [line])
    ∧ ∀ q : Nat, q ≠ p → (handleCommand env cmd w).heap[q]? = w.heap[q]?

/-- The test `isAction` of `handleIRCMessage`, as a proposition: at least 8 bytes,
the first and the last being `\x01`. -/
def wrapped (text : GoString) : Prop :=
  8 ≤ text.length ∧ text.take 1 = [1] ∧ text.drop (text.length - 1) = [1]

/-- The event of the `PRIVMSG` case: type `ty`, with nick, target, message and
time. -/
def chatEvent (ty now : GoString) (userID : Int) (nick target message : GoString) : Event :=
  { Type_ := ty,
    Data := some [(lit "nick", Value.str nick), (lit "target", Value.str target),
                  (lit "message", Value.str message), (lit "time", Value.str now)],
    UserID := userID }

/-- The `irc:disconnected` event of the `disconnect` case. -/
def disconnectedEvent (userID : Int) : Event :=
  { Type_ := lit "irc:disconnected", Data := none, UserID := userID }

/-- A `disconnect` command of the given user. -/
def disconnectOf (userID : Int) : Command :=
  { Type_ := lit "disconnect", Data := none, UserID := userID }

/-- The state after user 7 connected twice in a row, at times 0 and 1: the second
session (at position 1) has replaced the first (at position 0) in the registry. -/
def afterReconnect : World :=
  createAll 7 [(quietEnv 0, lit "alice"), (quietEnv 1, lit "alice")] World.init

/-- The names of a name-list reply as the specification describes them: the
string split at every space (byte 32), the empty pieces dropped. -/
def spaceFields (s : GoString) : List GoString :=
  (s.splitOn 32).filter (fun piece => decide (piece ≠ []))

/-- A left-to-right scan for the words of a string: `res` holds the words that
are complete, `cur` the word being read. -/
def scanWords (res : List GoString) (cur : GoString) : GoString → List GoString
  | [] => if cur ≠ [] then res ++ [cur] else res
  | c :: cs =>
    if c = 32 then scanWords (if cur ≠ [] then res ++ [cur] else res) [] cs
    else scanWords res (cur ++ [c]) cs

/-- The `irc:nicklist` event of the `353` case. -/
def nicklistEvent (userID : Int) (channel : GoString) (names : List GoString) : Event :=
  { Type_ := lit "irc:nicklist",
    Data := some [(lit "channel", Value.str channel), (lit "names", Value.strs names)],
    UserID := userID }

/-! ## Lemmas: nickname derivation -/

theorem allowed_lt (r : Nat) (h : r ∈ allowed) : r < 0x80 := by
  revert r
  decide

theorem encodeRune_allowed (r : Nat) (h : r ∈ allowed) : encodeRune r = [r] := by
  have := allowed_lt r h
  simp [encodeRune, this]

theorem sanitizeInner_eq (r : Nat) (as : List Nat) (result : GoString) :
    sanitizeInner r as result = if r ∈ as then result ++ encodeRune r else result := by
  induction as with
  | nil => simp [sanitizeInner]
  | cons a as ih =>
    by_cases h : r = a
    · simp [sanitizeInner, h]
    · simp [sanitizeInner, h, ih]

theorem sanitize_foldl (l : List (Nat × Nat)) (acc : GoString) :
    l.foldl (fun result ir => sanitizeInner ir.2 allowed result) acc
      = acc ++ (l.map Prod.snd).filter (fun r => decide (r ∈ allowed)) := by
  induction l generalizing acc with
  | nil => simp
  | cons x l ih =>
    rw [List.foldl_cons, ih, sanitizeInner_eq]
    by_cases h : x.2 ∈ allowed
    · simp [h, encodeRune_allowed]
    · simp [h]

theorem sanitizeNick_eq_filter (username : GoString) :
    sanitizeNick username
      = ((runes username).map Prod.snd).filter (fun r => decide (r ∈ allowed)) := by
  simp [sanitizeNick, sanitize_foldl]

theorem sanitizeNick_mem (username : GoString) (c : Nat) (h : c ∈ sanitizeNick username) :
    c ∈ allowed := by
  rw [sanitizeNick_eq_filter, List.mem_filter] at h
  simpa using h.2

/-- The slice `nick[:9]` of `createSession` cannot panic: it is taken only when
`len(nick) > 9`, and is then the first 9 bytes. -/
theorem goSlice_nine (nick : GoString) (h : nick.length > 9) :
    goSlice nick 0 9 = some (nick.take 9) := by
  have hle : (9 : Int) ≤ (nick.length : Int) := by omega
  simp [goSlice, hle]

theorem digitChar_allowed : ∀ m, m < 10 → (Nat.digitChar m).toNat ∈ allowed := by
  decide

theorem toDigitsCore_allowed (fuel n : Nat) (ds : List Char)
    (h : ∀ c ∈ ds, c.toNat ∈ allowed) :
    ∀ c ∈ Nat.toDigitsCore 10 fuel n ds, c.toNat ∈ allowed := by
  induction fuel generalizing n ds with
  | zero => simpa [Nat.toDigitsCore] using h
  | succ fuel ih =>
    have hd : (Nat.digitChar (n % 10)).toNat ∈ allowed :=
      digitChar_allowed _ (Nat.mod_lt _ (by decide))
    have hcons : ∀ c ∈ Nat.digitChar (n % 10) :: ds, c.toNat ∈ allowed := by
      intro c hc
      rcases List.mem_cons.1 hc with rfl | hc
      · exact hd
      · exact h c hc
    unfold Nat.toDigitsCore
    by_cases h0 : n / 10 = 0
    · simpa [h0] using hcons
    · simp only [h0, if_false]
      exact ih _ _ hcons

theorem fmtInt_allowed (i : Int) : ∀ c ∈ fmtInt i, c ∈ allowed := by
  have key : ∀ n : Nat, ∀ c ∈ (Nat.toDigits 10 n).map Char.toNat, c ∈ allowed := by
    intro n c hc
    rcases List.mem_map.1 hc with ⟨d, hd, rfl⟩
    exact toDigitsCore_allowed _ _ [] (by simp) d hd
  cases i with
  | ofNat n => exact key n
  | negSucc n =>
    intro c hc
    rcases List.mem_cons.1 hc with rfl | hc
    · decide
    · exact key _ c hc

set_option maxRecDepth 100000 in
theorem allowed_iff (c : Nat) : c ∈ allowed ↔ isAllowedRune c = true := by
  constructor
  · revert c
    decide
  · intro h
    have hlt : c < 128 := by
      simp only [isAllowedRune, Bool.or_eq_true, Bool.and_eq_true, decide_eq_true_eq] at h
      omega
    revert h
    revert c
    decide

/-! ## Lemmas: rate limiter -/

theorem Allow_maxTokens (r : RateLimiter) (now : ℚ) : (r.Allow now).1.maxTokens = r.maxTokens := by
  unfold RateLimiter.Allow
  simp only []
  split_ifs <;> rfl

theorem Allow_refillRate (r : RateLimiter) (now : ℚ) :
    (r.Allow now).1.refillRate = r.refillRate := by
  unfold RateLimiter.Allow
  simp only []
  split_ifs <;> rfl

theorem Allow_lastRefill (r : RateLimiter) (now : ℚ) : (r.Allow now).1.lastRefill = now := by
  unfold RateLimiter.Allow
  simp only []
  split_ifs <;> rfl

/-- One `Allow` keeps the token count within `[0, maxTokens]`. -/
theorem Allow_tokens_bounds (r : RateLimiter) (now : ℚ) (h0 : 0 ≤ r.tokens)
    (hmax : r.tokens ≤ r.maxTokens) (hrate : 0 ≤ r.refillRate) (ht : r.lastRefill ≤ now) :
    0 ≤ (r.Allow now).1.tokens ∧ (r.Allow now).1.tokens ≤ r.maxTokens := by
  have he : 0 ≤ (now - r.lastRefill) * r.refillRate := mul_nonneg (by linarith) hrate
  have hmin0 : 0 ≤ min r.maxTokens (r.tokens + (now - r.lastRefill) * r.refillRate) :=
    le_min (by linarith) (by linarith)
  have hminle : min r.maxTokens (r.tokens + (now - r.lastRefill) * r.refillRate) ≤ r.maxTokens :=
    min_le_left _ _
  unfold RateLimiter.Allow
  simp only []
  split_ifs with h
  · exact ⟨by simpa using h, by simp only []; linarith⟩
  · exact ⟨hmin0, hminle⟩

/-- The invariant along a sequence of calls with non-decreasing clock readings. -/
theorem allowSeq_tokens_bounds (times : List ℚ) :
    ∀ (r : RateLimiter), 0 ≤ r.tokens → r.tokens ≤ r.maxTokens → 0 ≤ r.refillRate →
      List.Chain (fun a b => a ≤ b) r.lastRefill times → ∀ k : Nat,
      0 ≤ (allowSeq r (times.take k)).1.tokens
        ∧ (allowSeq r (times.take k)).1.tokens ≤ r.maxTokens
        ∧ (allowSeq r (times.take k)).1.maxTokens = r.maxTokens := by
  induction times with
  | nil =>
    intro r h0 hmax _ _ k
    simp [allowSeq, h0, hmax]
  | cons t ts ih =>
    intro r h0 hmax hrate hch k
    cases k with
    | zero => simp [allowSeq, h0, hmax]
    | succ k =>
      rcases List.chain_cons.1 hch with ⟨hle, hch'⟩
      have hb := Allow_tokens_bounds r t h0 hmax hrate hle
      have := ih (r.Allow t).1 hb.1 (by rw [Allow_maxTokens]; exact hb.2)
        (by rw [Allow_refillRate]; exact hrate) (by rw [Allow_lastRefill]; exact hch') k
      rw [Allow_maxTokens] at this
      simpa [allowSeq] using this

/-- With no time elapsed, a limiter holding `k` whole tokens admits exactly `k`
calls. -/
theorem allowSeq_zero_elapsed (k : Nat) :
    ∀ (r : RateLimiter), r.tokens = (k : ℚ) → (k : ℚ) ≤ r.maxTokens →
      (allowSeq r (List.replicate (k + 1) r.lastRefill)).2
        = List.replicate k true ++ [false] := by
  induction k with
  | zero =>
    intro r htok hmax
    have hmin : min r.maxTokens (r.tokens + (r.lastRefill - r.lastRefill) * r.refillRate) = 0 := by
      rw [sub_self, zero_mul, add_zero, htok]
      exact min_eq_right (by simpa using hmax)
    have : (r.Allow r.lastRefill).2 = false := by
      unfold RateLimiter.Allow
      simp only [hmin]
      norm_num
    simp [allowSeq, this]
  | succ k ih =>
    intro r htok hmax
    have hmin : min r.maxTokens (r.tokens + (r.lastRefill - r.lastRefill) * r.refillRate)
        = (k : ℚ) + 1 := by
      rw [sub_self, zero_mul, add_zero, htok]
      push_cast at hmax ⊢
      exact min_eq_right hmax
    have hge : (k : ℚ) + 1 ≥ 1 := by
      have : (0 : ℚ) ≤ k := Nat.cast_nonneg k
      linarith
    have hres : (r.Allow r.lastRefill).2 = true := by
      unfold RateLimiter.Allow
      simp only [hmin, hge, if_true]
    have htok' : (r.Allow r.lastRefill).1.tokens = (k : ℚ) := by
      unfold RateLimiter.Allow
      simp only [hmin, hge, if_true]
      ring
    have hmax' : (k : ℚ) ≤ (r.Allow r.lastRefill).1.maxTokens := by
      rw [Allow_maxTokens]
      push_cast at hmax
      linarith
    have := ih (r.Allow r.lastRefill).1 htok' hmax'
    rw [Allow_lastRefill] at this
    rw [List.replicate_succ, allowSeq, hres, this]
    rfl

/-- A call made at least one second after the previous refill succeeds when the
rate is at least 1 token per second. -/
theorem Allow_after_one_second (r : RateLimiter) (now : ℚ) (h0 : 0 ≤ r.tokens)
    (hmax : 1 ≤ r.maxTokens) (hrate : 1 ≤ r.refillRate) (ht : r.lastRefill + 1 ≤ now) :
    (r.Allow now).2 = true ∧ 0 ≤ (r.Allow now).1.tokens := by
  have he : 1 ≤ (now - r.lastRefill) * r.refillRate := by
    have h1 : 1 ≤ now - r.lastRefill := by linarith
    calc (1 : ℚ) = 1 * 1 := by ring
      _ ≤ (now - r.lastRefill) * r.refillRate :=
        mul_le_mul h1 hrate (by norm_num) (by linarith)
  have hmin : 1 ≤ min r.maxTokens (r.tokens + (now - r.lastRefill) * r.refillRate) :=
    le_min hmax (by linarith)
  unfold RateLimiter.Allow
  simp only [ge_iff_le, hmin, if_true]
  exact ⟨trivial, by linarith⟩

theorem allowSeq_spaced (times : List ℚ) :
    ∀ (r : RateLimiter), 0 ≤ r.tokens → 1 ≤ r.maxTokens → 1 ≤ r.refillRate →
      List.Chain (fun a b => a + 1 ≤ b) r.lastRefill times →
      ∀ b ∈ (allowSeq r times).2, b = true := by
  induction times with
  | nil =>
    intro r _ _ _ _ b hb
    simp [allowSeq] at hb
  | cons t ts ih =>
    intro r h0 hmax hrate hch b hb
    rcases List.chain_cons.1 hch with ⟨hle, hch'⟩
    have h1 := Allow_after_one_second r t h0 hmax hrate hle
    rw [allowSeq] at hb
    rcases List.mem_cons.1 hb with rfl | hb
    · exact h1.1
    · exact ih (r.Allow t).1 h1.2 (by rw [Allow_maxTokens]; exact hmax)
        (by rw [Allow_refillRate]; exact hrate) (by rw [Allow_lastRefill]; exact hch') b hb

/-- The first call on a full bucket, at or after its creation, succeeds. -/
theorem Allow_full_bucket (r : RateLimiter) (now : ℚ) (hfull : r.tokens = r.maxTokens)
    (hmax : 1 ≤ r.maxTokens) (hrate : 0 ≤ r.refillRate) (ht : r.lastRefill ≤ now) :
    (r.Allow now).2 = true ∧ 0 ≤ (r.Allow now).1.tokens := by
  have he : 0 ≤ (now - r.lastRefill) * r.refillRate := mul_nonneg (by linarith) hrate
  have hmin : 1 ≤ min r.maxTokens (r.tokens + (now - r.lastRefill) * r.refillRate) :=
    le_min hmax (by linarith)
  unfold RateLimiter.Allow
  simp only [ge_iff_le, hmin, if_true]
  exact ⟨trivial, by linarith⟩

/-! ## Lemmas: command router -/

theorem lit_connect : lit "connect" = [99, 111, 110, 110, 101, 99, 116] := by decide
theorem lit_join : lit "join" = [106, 111, 105, 110] := by decide
theorem lit_part : lit "part" = [112, 97, 114, 116] := by decide
theorem lit_send_message :
    lit "send_message" = [115, 101, 110, 100, 95, 109, 101, 115, 115, 97, 103, 101] := by decide
theorem lit_change_nick :
    lit "change_nick" = [99, 104, 97, 110, 103, 101, 95, 110, 105, 99, 107] := by decide
theorem lit_set_topic : lit "set_topic" = [115, 101, 116, 95, 116, 111, 112, 105, 99] := by decide
theorem lit_kick : lit "kick" = [107, 105, 99, 107] := by decide
theorem lit_invite : lit "invite" = [105, 110, 118, 105, 116, 101] := by decide
theorem lit_whois : lit "whois" = [119, 104, 111, 105, 115] := by decide
theorem lit_list_channels :
    lit "list_channels" = [108, 105, 115, 116, 95, 99, 104, 97, 110, 110, 101, 108, 115] := by
  decide
theorem lit_get_nicklist :
    lit "get_nicklist" = [103, 101, 116, 95, 110, 105, 99, 107, 108, 105, 115, 116] := by decide
theorem lit_disconnect :
    lit "disconnect" = [100, 105, 115, 99, 111, 110, 110, 101, 99, 116] := by decide

/-- For a command that builds a wire line, `handleCommand` is one call of
`writeOrError` with the line of the grammar. -/
theorem handleCommand_wire (env : Env) (cmd : Command) (w : World) (p : Nat) (line : GoString)
    (hs : w.sessions cmd.UserID = some p) (hc : cmd.Type_ ≠ lit "connect")
    (hl : wireLine cmd.Type_ cmd.Data = some line) :
    handleCommand env cmd w = writeOrError env cmd.UserID p line w := by
  unfold wireLine at hl
  unfold handleCommand
  rw [if_neg hc]
  simp only [hs]
  by_cases hlc : cmd.Type_ = lit "list_channels"
  · have e1 : cmd.Type_ ≠ lit "join" := by rw [hlc]; decide
    have e2 : cmd.Type_ ≠ lit "part" := by rw [hlc]; decide
    have e3 : cmd.Type_ ≠ lit "send_message" := by rw [hlc]; decide
    have e4 : cmd.Type_ ≠ lit "change_nick" := by rw [hlc]; decide
    have e5 : cmd.Type_ ≠ lit "set_topic" := by rw [hlc]; decide
    have e6 : cmd.Type_ ≠ lit "kick" := by rw [hlc]; decide
    have e7 : cmd.Type_ ≠ lit "invite" := by rw [hlc]; decide
    have e8 : cmd.Type_ ≠ lit "whois" := by rw [hlc]; decide
    rw [if_pos hlc] at hl
    rw [if_neg e1, if_neg e2, if_neg e3, if_neg e4, if_neg e5, if_neg e6, if_neg e7, if_neg e8,
      if_pos hlc]
    rw [Option.some.inj hl]
  · rw [if_neg hlc] at hl
    cases hd : cmd.Data with
    | none =>
      rw [hd] at hl
      exact absurd hl (by simp)
    | some d =>
      rw [hd] at hl
      simp only [] at hl ⊢
      by_cases h1 : cmd.Type_ = lit "join"
      · rw [if_pos h1] at hl ⊢
        rw [Option.some.inj hl]
      rw [if_neg h1] at hl ⊢
      by_cases h2 : cmd.Type_ = lit "part"
      · rw [if_pos h2] at hl ⊢
        rw [← Option.some.inj hl]
        by_cases hm : d.Message = [] <;> simp [hm]
      rw [if_neg h2] at hl ⊢
      by_cases h3 : cmd.Type_ = lit "send_message"
      · rw [if_pos h3] at hl ⊢
        rw [Option.some.inj hl]
      rw [if_neg h3] at hl ⊢
      by_cases h4 : cmd.Type_ = lit "change_nick"
      · rw [if_pos h4] at hl ⊢
        rw [Option.some.inj hl]
      rw [if_neg h4] at hl ⊢
      by_cases h5 : cmd.Type_ = lit "set_topic"
      · rw [if_pos h5] at hl ⊢
        rw [← Option.some.inj hl]
        by_cases hm : d.Topic = [] <;> simp [hm]
      rw [if_neg h5] at hl ⊢
      by_cases h6 : cmd.Type_ = lit "kick"
      · rw [if_pos h6] at hl ⊢
        rw [← Option.some.inj hl]
        by_cases hm : d.Reason = [] <;> simp [hm]
      rw [if_neg h6] at hl ⊢
      by_cases h7 : cmd.Type_ = lit "invite"
      · rw [if_pos h7] at hl ⊢
        rw [Option.some.inj hl]
      rw [if_neg h7] at hl ⊢
      by_cases h8 : cmd.Type_ = lit "whois"
      · rw [if_pos h8] at hl ⊢
        rw [Option.some.inj hl]
      rw [if_neg h8] at hl ⊢
      rw [if_neg hlc]
      by_cases h9 : cmd.Type_ = lit "get_nicklist"
      · rw [if_pos h9] at hl ⊢
        rw [Option.some.inj hl]
      rw [if_neg h9] at hl
      exact absurd hl (by simp)

theorem wireLine_some (ty : GoString) (data : Option Fields) (hty : ty ∈ wireTypes)
    (hdata : data = none → ty = lit "list_channels") :
    ∃ line, wireLine ty data = some line := by
  cases data with
  | none =>
    have h := hdata rfl
    subst h
    exact ⟨_, rfl⟩
  | some d =>
    simp only [wireTypes, List.mem_cons, List.mem_singleton, List.not_mem_nil, or_false] at hty
    rcases hty with h | h | h | h | h | h | h | h | h | h <;> subst h <;> exact ⟨_, rfl⟩

theorem wireLine_ne_connect (ty : GoString) (data : Option Fields) (line : GoString)
    (hl : wireLine ty data = some line) : ty ≠ lit "connect" := by
  intro h
  subst h
  cases data with
  | none =>
    have hnone : wireLine (lit "connect") none = none := rfl
    rw [hnone] at hl
    exact absurd hl (by simp)
  | some d =>
    have hnone : wireLine (lit "connect") (some d) = none := rfl
    rw [hnone] at hl
    exact absurd hl (by simp)

theorem noCRLF_append (a b : GoString) : noCRLF (a ++ b) ↔ noCRLF a ∧ noCRLF b := by
  unfold noCRLF
  simp only [List.mem_append, not_or]
  tauto

theorem noCRLF_nil : noCRLF [] := by
  simp [noCRLF]

theorem wireLine_noCRLF_some (ty : GoString) (d : Fields) (line : GoString)
    (hl : wireLine ty (some d) = some line) (hd : d.noCRLF) : noCRLF line := by
  rcases hd with ⟨hch, hmsg, htg, hnk, htp, hrs⟩
  have v1 : noCRLF (lit "LIST") := by unfold noCRLF; decide
  have v2 : noCRLF (lit "JOIN ") := by unfold noCRLF; decide
  have v3 : noCRLF (lit "PART ") := by unfold noCRLF; decide
  have v4 : noCRLF (lit "PRIVMSG ") := by unfold noCRLF; decide
  have v5 : noCRLF (lit "NICK ") := by unfold noCRLF; decide
  have v6 : noCRLF (lit "TOPIC ") := by unfold noCRLF; decide
  have v7 : noCRLF (lit "KICK ") := by unfold noCRLF; decide
  have v8 : noCRLF (lit "INVITE ") := by unfold noCRLF; decide
  have v9 : noCRLF (lit "WHOIS ") := by unfold noCRLF; decide
  have v10 : noCRLF (lit "NAMES ") := by unfold noCRLF; decide
  have c : noCRLF (lit " :") := by unfold noCRLF; decide
  have sp : noCRLF (lit " ") := by unfold noCRLF; decide
  unfold wireLine at hl
  by_cases h0 : ty = lit "list_channels"
  · rw [if_pos h0] at hl
    rw [← Option.some.inj hl]
    exact v1
  rw [if_neg h0] at hl
  dsimp only at hl
  by_cases h1 : ty = lit "join"
  · rw [if_pos h1] at hl
    rw [← Option.some.inj hl]
    simp only [noCRLF_append, noCRLF_nil, v1, v2, v3, v4, v5, v6, v7, v8, v9, v10, c, sp,
      hch, hmsg, htg, hnk, htp, hrs, and_self]
  rw [if_neg h1] at hl
  by_cases h2 : ty = lit "part"
  · rw [if_pos h2] at hl
    rw [← Option.some.inj hl]
    by_cases hm : d.Message = []
    · rw [if_pos hm]
      simp only [noCRLF_append, noCRLF_nil, v1, v2, v3, v4, v5, v6, v7, v8, v9, v10, c, sp,
        hch, hmsg, htg, hnk, htp, hrs, and_self]
    · rw [if_neg hm]
      simp only [noCRLF_append, noCRLF_nil, v1, v2, v3, v4, v5, v6, v7, v8, v9, v10, c, sp,
        hch, hmsg, htg, hnk, htp, hrs, and_self]
  rw [if_neg h2] at hl
  by_cases h3 : ty = lit "send_message"
  · rw [if_pos h3] at hl
    rw [← Option.some.inj hl]
    simp only [noCRLF_append, noCRLF_nil, v1, v2, v3, v4, v5, v6, v7, v8, v9, v10, c, sp,
      hch, hmsg, htg, hnk, htp, hrs, and_self]
  rw [if_neg h3] at hl
  by_cases h4 : ty = lit "change_nick"
  · rw [if_pos h4] at hl
    rw [← Option.some.inj hl]
    simp only [noCRLF_append, noCRLF_nil, v1, v2, v3, v4, v5, v6, v7, v8, v9, v10, c, sp,
      hch, hmsg, htg, hnk, htp, hrs, and_self]
  rw [if_neg h4] at hl
  by_cases h5 : ty = lit "set_topic"
  · rw [if_pos h5] at hl
    rw [← Option.some.inj hl]
    by_cases hm : d.Topic = []
    · rw [if_pos hm]
      simp only [noCRLF_append, noCRLF_nil, v1, v2, v3, v4, v5, v6, v7, v8, v9, v10, c, sp,
        hch, hmsg, htg, hnk, htp, hrs, and_self]
    · rw [if_neg hm]
      simp only [noCRLF_append, noCRLF_nil, v1, v2, v3, v4, v5, v6, v7, v8, v9, v10, c, sp,
        hch, hmsg, htg, hnk, htp, hrs, and_self]
  rw [if_neg h5] at hl
  by_cases h6 : ty = lit "kick"
  · rw [if_pos h6] at hl
    rw [← Option.some.inj hl]
    by_cases hm : d.Reason = []
    · rw [if_pos hm]
      simp only [noCRLF_append, noCRLF_nil, v1, v2, v3, v4, v5, v6, v7, v8, v9, v10, c, sp,
        hch, hmsg, htg, hnk, htp, hrs, and_self]
    · rw [if_neg hm]
      simp only [noCRLF_append, noCRLF_nil, v1, v2, v3, v4, v5, v6, v7, v8, v9, v10, c, sp,
        hch, hmsg, htg, hnk, htp, hrs, and_self]
  rw [if_neg h6] at hl
  by_cases h7 : ty = lit "invite"
  · rw [if_pos h7] at hl
    rw [← Option.some.inj hl]
    simp only [noCRLF_append, noCRLF_nil, v1, v2, v3, v4, v5, v6, v7, v8, v9, v10, c, sp,
      hch, hmsg, htg, hnk, htp, hrs, and_self]
  rw [if_neg h7] at hl
  by_cases h8 : ty = lit "whois"
  · rw [if_pos h8] at hl
    rw [← Option.some.inj hl]
    simp only [noCRLF_append, noCRLF_nil, v1, v2, v3, v4, v5, v6, v7, v8, v9, v10, c, sp,
      hch, hmsg, htg, hnk, htp, hrs, and_self]
  rw [if_neg h8] at hl
  by_cases h9 : ty = lit "get_nicklist"
  · rw [if_pos h9] at hl
    rw [← Option.some.inj hl]
    simp only [noCRLF_append, noCRLF_nil, v1, v2, v3, v4, v5, v6, v7, v8, v9, v10, c, sp,
      hch, hmsg, htg, hnk, htp, hrs, and_self]
  rw [if_neg h9] at hl
  exact absurd hl (by simp)

theorem wireLine_noCRLF (ty : GoString) (data : Option Fields) (line : GoString)
    (hl : wireLine ty data = some line) (hd : ∀ d, data = some d → d.noCRLF) : noCRLF line := by
  cases data with
  | none =>
    unfold wireLine at hl
    by_cases h0 : ty = lit "list_channels"
    · rw [if_pos h0] at hl
      rw [← Option.some.inj hl]
      unfold noCRLF
      decide
    · rw [if_neg h0] at hl
      exact absurd hl (by simp)
  | some d => exact wireLine_noCRLF_some ty d line hl (hd d rfl)

theorem writeOrError_denied (env : Env) (userID : Int) (p : Nat) (line : GoString) (w : World)
    (sess : IRCSession) (hp : w.heap[p]? = some sess)
    (hd : (sess.rateLimiter.Allow env.now).2 = false) :
    writeOrError env userID p line w =
      { heap := w.heap.set p { sess with rateLimiter := (sess.rateLimiter.Allow env.now).1,
                                         writeLineCalls := sess.writeLineCalls ++ [line] },
        sessions := w.sessions,
        events := w.events ++ [errorEvent userID rateLimitMessage] } := by
  simp [writeOrError, hp, IRCSession.WriteLine, hd, publishEvent, errorEvent, rateLimitMessage]

theorem writeOrError_allowed (env : Env) (userID : Int) (p : Nat) (line : GoString) (w : World)
    (sess : IRCSession) (hp : w.heap[p]? = some sess)
    (ha : (sess.rateLimiter.Allow env.now).2 = true) :
    writeOrError env userID p line w =
      { heap := w.heap.set p { sess with rateLimiter := (sess.rateLimiter.Allow env.now).1,
                                         writeLineCalls := sess.writeLineCalls ++ [line],
                                         written := sess.written ++ [line] },
        sessions := w.sessions,
        events := w.events ++
          (match env.writeErr with
           | none => []
           | some e => [errorEvent userID e]) } := by
  cases he : env.writeErr <;>
    simp [writeOrError, hp, IRCSession.WriteLine, ha, publishEvent, errorEvent, he]

/-! ## Lemmas: session registry -/

theorem createSession_ok (env : Env) (userID : Int) (username : GoString) (w : World)
    (h : env.dialErr = none) :
    createSession env userID username w =
      ({ heap := w.heap ++ [newSession env userID username (createSessionNick userID username)],
         sessions := Function.update w.sessions userID (some w.heap.length),
         events := w.events }, none) := by
  simp [createSession, h]

/-- What a run of successful `createSession` calls for one user id does: it
appends one fresh session per call, touches no existing session, publishes
nothing, and leaves the user id mapped to the session allocated last. -/
theorem createAll_eq (userID : Int) (calls : List (Env × GoString)) :
    ∀ w : World, (∀ c ∈ calls, c.1.dialErr = none) →
      (createAll userID calls w).heap = w.heap ++ calls.map
          (fun c => newSession c.1 userID c.2 (createSessionNick userID c.2))
      ∧ (createAll userID calls w).events = w.events
      ∧ (createAll userID calls w).sessions =
          if calls.length = 0 then w.sessions
          else Function.update w.sessions userID (some (w.heap.length + calls.length - 1)) := by
  induction calls with
  | nil =>
    intro w _
    simp [createAll]
  | cons c cs ih =>
    intro w hok
    have hc : c.1.dialErr = none := hok c (List.mem_cons_self _ _)
    have ih' := ih (createSession c.1 userID c.2 w).1 (fun x hx => hok x (List.mem_cons_of_mem _ hx))
    rw [createSession_ok _ _ _ _ hc] at ih'
    rw [createAll, createSession_ok _ _ _ _ hc]
    refine ⟨?_, ?_, ?_⟩
    · rw [ih'.1]
      simp
    · rw [ih'.2.1]
    · rw [ih'.2.2]
      by_cases hcs : cs.length = 0
      · have : cs = [] := List.length_eq_zero.1 hcs
        subst this
        simp
      · have hlen : (w.heap ++ [newSession c.1 userID c.2 (createSessionNick userID c.2)]).length
            + cs.length - 1 = w.heap.length + (c :: cs).length - 1 := by
          simp only [List.length_append, List.length_cons, List.length_nil]
          omega
        have hne : (c :: cs).length ≠ 0 := by simp
        rw [if_neg hcs, if_neg hne, hlen, Function.update_idem]

/-! ## Lemmas: the six-sends scenario -/

theorem afterSends_zero : afterSends 0 =
    { heap := [newSession (quietEnv 0) 7 (lit "alice") (lit "alice")],
      sessions := Function.update (fun _ => none) 7 (some 0),
      events := [] } := by
  have hn : createSessionNick 7 (lit "alice") = lit "alice" := by decide
  simp [afterSends, createSession, quietEnv, World.init, hn]

theorem afterSends_five : afterSends 5 =
    { heap := [{ newSession (quietEnv 0) 7 (lit "alice") (lit "alice") with
                 rateLimiter := { tokens := 0, maxTokens := 5, refillRate := 1, lastRefill := 0 },
                 writeLineCalls := List.replicate 5 (lit "PRIVMSG #go :hi"),
                 written := List.replicate 5 (lit "PRIVMSG #go :hi") }],
      sessions := Function.update (fun _ => none) 7 (some 0),
      events := [] } := by
  have hn : createSessionNick 7 (lit "alice") = lit "alice" := by decide
  have hl : lit "PRIVMSG " ++ lit "#go" ++ lit " :" ++ lit "hi" = lit "PRIVMSG #go :hi" := by
    decide
  simp [afterSends, handleCommand, writeOrError, IRCSession.WriteLine, RateLimiter.Allow,
    createSession, newSession, NewRateLimiter, quietEnv, sendHi, World.init, publishEvent,
    lit_send_message, lit_connect, lit_join, lit_part, noFields, hn]
  norm_num
  simp [← hl]

/-! ## Lemmas: upstream message translator -/

theorem goIndex_of_lt {α : Type} (l : List α) (i : Nat) (h : i < l.length) :
    goIndex l (i : Int) = some l[i] := by
  simp [goIndex, List.getElem?_eq_getElem h]

theorem goSlice_of_le {α : Type} (s : List α) (lo hi : Int) (h0 : 0 ≤ lo) (h1 : lo ≤ hi)
    (h2 : hi ≤ (s.length : Int)) :
    goSlice s lo hi = some ((s.take hi.toNat).drop lo.toNat) := by
  simp [goSlice, h0, h1, h2]

/-- The indices `range` visits lie inside the string and strictly increase. -/
theorem runesFrom_bounds (s : GoString) :
    ∀ (skip i : Nat),
      (∀ x ∈ runesFrom skip i s, i ≤ x.1 ∧ x.1 < i + s.length)
        ∧ (runesFrom skip i s).Pairwise (fun a b => a.1 < b.1) := by
  induction s with
  | nil =>
    intro skip i
    simp [runesFrom]
  | cons b rest ih =>
    intro skip i
    cases skip with
    | zero =>
      have h := ih ((decodeRune (b :: rest)).2 - 1) (i + 1)
      simp only [runesFrom, List.mem_cons, List.pairwise_cons, List.length_cons]
      refine ⟨?_, ?_, h.2⟩
      · rintro x (rfl | hx)
        · exact ⟨le_refl _, by omega⟩
        · have := h.1 x hx
          omega
      · intro x hx
        have := h.1 x hx
        show i < x.1
        omega
    | succ k =>
      have h := ih k (i + 1)
      simp only [runesFrom, List.length_cons]
      refine ⟨?_, h.2⟩
      intro x hx
      have := h.1 x hx
      omega

/-- The loop of `splitNames` never slices out of range. -/
theorem splitNames_loop_safe (s : GoString) (l : List (Nat × Nat)) :
    ∀ (res : List GoString) (start : Int), 0 ≤ start → start ≤ (s.length : Int) →
      (∀ x ∈ l, start ≤ (x.1 : Int) ∧ x.1 < s.length) →
      l.Pairwise (fun a b => a.1 < b.1) →
      ∃ (res1 : List GoString) (start1 : Int),
        l.foldl (splitNamesStep s) (some (res, start)) = some (res1, start1)
          ∧ 0 ≤ start1 ∧ start1 ≤ (s.length : Int) := by
  induction l with
  | nil =>
    intro res start h0 h1 _ _
    exact ⟨res, start, rfl, h0, h1⟩
  | cons x l ih =>
    intro res start h0 h1 hall hpw
    have hx := hall x (List.mem_cons_self _ _)
    rcases List.pairwise_cons.1 hpw with ⟨hlt, hpw1⟩
    rw [List.foldl_cons]
    by_cases h32 : x.2 = 32
    · by_cases hs : start < (x.1 : Int)
      · have hsl : goSlice s start (x.1 : Int)
            = some ((s.take (x.1 : Int).toNat).drop start.toNat) :=
          goSlice_of_le s start x.1 h0 (le_of_lt hs) (by omega)
        have hstep : splitNamesStep s (some (res, start)) x
            = some (res ++ [(s.take (x.1 : Int).toNat).drop start.toNat], (x.1 : Int) + 1) := by
          simp [splitNamesStep, h32, hs, hsl]
        rw [hstep]
        refine ih _ _ (by omega) (by omega) ?_ hpw1
        intro y hy
        have := hlt y hy
        have := hall y (List.mem_cons_of_mem _ hy)
        omega
      · have hstep : splitNamesStep s (some (res, start)) x = some (res, (x.1 : Int) + 1) := by
          simp [splitNamesStep, h32, hs]
        rw [hstep]
        refine ih _ _ (by omega) (by omega) ?_ hpw1
        intro y hy
        have := hlt y hy
        have := hall y (List.mem_cons_of_mem _ hy)
        omega
    · have hstep : splitNamesStep s (some (res, start)) x = some (res, start) := by
        simp [splitNamesStep, h32]
      rw [hstep]
      refine ih _ _ h0 h1 ?_ hpw1
      intro y hy
      have := hlt y hy
      have := hall y (List.mem_cons_of_mem _ hy)
      omega

/-- The function `splitNames` returns on every string. -/
theorem splitNames_total (s : GoString) : ∃ l, splitNames s = some l := by
  have hb := runesFrom_bounds s 0 0
  obtain ⟨res1, start1, hfold, h0, h1⟩ :=
    splitNames_loop_safe s (runes s) [] 0 (le_refl _) (by omega)
      (by
        intro x hx
        have := hb.1 x hx
        omega)
      hb.2
  unfold splitNames
  rw [hfold, Option.some_bind]
  by_cases hlt : start1 < (s.length : Int)
  · have hsl := goSlice_of_le s start1 s.length h0 (le_of_lt hlt) (le_refl _)
    rw [if_pos hlt, hsl]
    exact ⟨_, rfl⟩
  · rw [if_neg hlt]
    exact ⟨_, rfl⟩

/-- The function `parseNames` returns on every string. -/
theorem parseNames_total (s : GoString) : ∃ l, parseNames s = some l := by
  obtain ⟨l, hl⟩ := splitNames_total s
  unfold parseNames
  rw [hl]
  exact ⟨_, rfl⟩

theorem handleIRCMessage_other (now : GoString) (userID : Int) (msg : Message) (w : World)
    (hP : msg.Command ≠ lit "PRIVMSG") : ∃ w1, handleIRCMessage now userID msg w = some w1 := by
  unfold handleIRCMessage
  rw [if_neg hP]
  by_cases h1 : msg.Command = lit "JOIN"
  · rw [if_pos h1]
    rcases hpar : msg.Params with _ | ⟨a, rest⟩
    · exact ⟨_, rfl⟩
    · simp [goIndex]
  rw [if_neg h1]
  by_cases h2 : msg.Command = lit "PART"
  · rw [if_pos h2]
    rcases hpar : msg.Params with _ | ⟨a, _ | ⟨b, rest⟩⟩
    · exact ⟨_, rfl⟩
    · simp [goIndex]
    · simp [goIndex]
  rw [if_neg h2]
  by_cases h3 : msg.Command = lit "NICK"
  · rw [if_pos h3]
    rcases hpar : msg.Params with _ | ⟨a, rest⟩
    · exact ⟨_, rfl⟩
    · simp [goIndex]
  rw [if_neg h3]
  by_cases h4 : msg.Command = lit "TOPIC"
  · rw [if_pos h4]
    rcases hpar : msg.Params with _ | ⟨a, _ | ⟨b, rest⟩⟩
    · exact ⟨_, rfl⟩
    · simp [goIndex]
    · simp [goIndex]
  rw [if_neg h4]
  by_cases h5 : msg.Command = lit "353"
  · rw [if_pos h5]
    rcases hpar : msg.Params with _ | ⟨a, _ | ⟨b, _ | ⟨c, _ | ⟨d, rest⟩⟩⟩⟩
    · exact ⟨_, rfl⟩
    · exact ⟨_, rfl⟩
    · exact ⟨_, rfl⟩
    · exact ⟨_, rfl⟩
    · obtain ⟨l, hl⟩ := parseNames_total d
      rw [if_neg (show ¬ (a :: b :: c :: d :: rest).length < 4 by simp)]
      simp [goIndex, hl]
  rw [if_neg h5]
  by_cases h6 : msg.Command = lit "NOTICE"
  · rw [if_pos h6]
    rcases hpar : msg.Params with _ | ⟨a, _ | ⟨b, rest⟩⟩
    · exact ⟨_, rfl⟩
    · exact ⟨_, rfl⟩
    · rw [if_neg (show ¬ (a :: b :: rest).length < 2 by simp)]
      simp [goIndex]
  rw [if_neg h6]
  by_cases h7 : (msg.Command = lit "311" ∨ msg.Command = lit "312" ∨ msg.Command = lit "313"
      ∨ msg.Command = lit "317" ∨ msg.Command = lit "318")
  · rw [if_pos h7]
    rcases hpar : msg.Params with _ | ⟨a, _ | ⟨b, rest⟩⟩
    · exact ⟨_, rfl⟩
    · exact ⟨_, rfl⟩
    · rw [if_neg (show ¬ (a :: b :: rest).length < 2 by simp)]
      simp [goIndex]
  rw [if_neg h7]
  by_cases h8 : msg.Command = lit "322"
  · rw [if_pos h8]
    rcases hpar : msg.Params with _ | ⟨a, _ | ⟨b, _ | ⟨c, _ | ⟨d, rest⟩⟩⟩⟩
    · exact ⟨_, rfl⟩
    · exact ⟨_, rfl⟩
    · exact ⟨_, rfl⟩
    · simp [goIndex]
    · rw [if_neg (show ¬ (a :: b :: c :: d :: rest).length < 3 by simp)]
      simp [goIndex]
  rw [if_neg h8]
  by_cases h9 : msg.Command = lit "323"
  · rw [if_pos h9]
    exact ⟨_, rfl⟩
  rw [if_neg h9]
  exact ⟨_, rfl⟩

theorem isAction_eq (m : GoString) :
    isAction m = some (decide (8 ≤ m.length ∧ m.take 1 = [1] ∧ m.drop (m.length - 1) = [1])) := by
  unfold isAction
  by_cases h8 : m.length ≥ 8
  · have hs1 : goSlice m 0 1 = some (m.take 1) := by
      rw [goSlice_of_le m 0 1 (le_refl _) (by norm_num) (by omega)]
      simp
    have hs2 : goSlice m ((m.length : Int) - 1) m.length = some (m.drop (m.length - 1)) := by
      rw [goSlice_of_le m _ _ (by omega) (by omega) (le_refl _)]
      have : ((m.length : Int) - 1).toNat = m.length - 1 := by omega
      simp [this]
    rw [if_pos h8, hs1, Option.some_bind]
    by_cases hh : m.take 1 = [1]
    · rw [if_pos hh, hs2]
      simp [hh, h8]
    · rw [if_neg hh]
      simp [hh]
  · rw [if_neg h8]
    have : ¬ 8 ≤ m.length := h8
    simp [this]

/-- The function `handleIRCMessage` panics exactly on a `PRIVMSG` with at least two
parameters whose text is a `shortAction`; on every other message it returns. -/
theorem handleIRCMessage_none_iff (now : GoString) (userID : Int) (msg : Message) (w : World) :
    handleIRCMessage now userID msg w = none ↔
      msg.Command = lit "PRIVMSG"
        ∧ ∃ target text rest, msg.Params = target :: text :: rest ∧ shortAction text := by
  by_cases hP : msg.Command = lit "PRIVMSG"
  · unfold handleIRCMessage
    rw [if_pos hP]
    rcases hpar : msg.Params with _ | ⟨target, _ | ⟨text, rest⟩⟩
    · simp
    · simp
    · have hlen : ¬ (target :: text :: rest).length < 2 := by simp
      rw [if_neg hlen]
      have hi0 : goIndex (target :: text :: rest) 0 = some target := by simp [goIndex]
      have hi1 : goIndex (target :: text :: rest) 1 = some text := by simp [goIndex]
      rw [hi0, hi1, Option.some_bind, Option.some_bind, isAction_eq, Option.some_bind]
      by_cases hact : 8 ≤ text.length ∧ text.take 1 = [1] ∧ text.drop (text.length - 1) = [1]
      · rw [decide_eq_true hact, if_pos rfl]
        by_cases h8 : text.length = 8
        · have hsl : goSlice text 8 ((text.length : Int) - 1) = none := by
            simp [goSlice, h8]
          have hsa : shortAction text := by
            refine ⟨h8, hact.2.1, ?_⟩
            have := hact.2.2
            rw [h8] at this
            exact this
          rw [hsl]
          simp only [Option.map_none', true_iff]
          exact ⟨hP, target, text, rest, rfl, hsa⟩
        · have hsl := goSlice_of_le text 8 ((text.length : Int) - 1) (by norm_num) (by omega)
            (by omega)
          rw [hsl]
          simp only [Option.map_some', reduceCtorEq, false_iff, not_and, not_exists]
          intro _ t x r hcons hsa
          have : x = text := by
            simp only [List.cons.injEq] at hcons
            exact hcons.2.1.symm
          subst this
          exact h8 hsa.1
      · rw [decide_eq_false hact]
        simp only [Bool.false_eq_true, if_false, reduceCtorEq, false_iff, not_and, not_exists]
        intro _ t x r hcons hsa
        have : x = text := by
          simp only [List.cons.injEq] at hcons
          exact hcons.2.1.symm
        subst this
        apply hact
        refine ⟨by rw [hsa.1], hsa.2.1, ?_⟩
        rw [hsa.1]
        exact hsa.2.2
  · obtain ⟨w1, hw1⟩ := handleIRCMessage_other now userID msg w hP
    rw [hw1]
    simp [hP]

/-- A message that is too short for its type is dropped without an event. -/
theorem handleIRCMessage_underLength (now : GoString) (userID : Int) (msg : Message) (w : World)
    (hu : underLength msg) : handleIRCMessage now userID msg w = some w := by
  rcases hu with ⟨h | h, hlen⟩ | ⟨h | h | h | h, hlen⟩ | ⟨h, hlen⟩
    | ⟨h | h | h | h | h, hlen⟩ | ⟨h, hlen⟩
  · unfold handleIRCMessage
    rw [if_pos h,
      if_pos hlen]
  · unfold handleIRCMessage
    rw [if_neg (show ¬ msg.Command = lit "PRIVMSG" by rw [h]; decide),
      if_neg (show ¬ msg.Command = lit "JOIN" by rw [h]; decide),
      if_neg (show ¬ msg.Command = lit "PART" by rw [h]; decide),
      if_neg (show ¬ msg.Command = lit "NICK" by rw [h]; decide),
      if_neg (show ¬ msg.Command = lit "TOPIC" by rw [h]; decide),
      if_neg (show ¬ msg.Command = lit "353" by rw [h]; decide),
      if_pos h,
      if_pos hlen]
  · unfold handleIRCMessage
    rw [if_neg (show ¬ msg.Command = lit "PRIVMSG" by rw [h]; decide),
      if_pos h,
      if_pos hlen]
  · unfold handleIRCMessage
    rw [if_neg (show ¬ msg.Command = lit "PRIVMSG" by rw [h]; decide),
      if_neg (show ¬ msg.Command = lit "JOIN" by rw [h]; decide),
      if_pos h,
      if_pos hlen]
  · unfold handleIRCMessage
    rw [if_neg (show ¬ msg.Command = lit "PRIVMSG" by rw [h]; decide),
      if_neg (show ¬ msg.Command = lit "JOIN" by rw [h]; decide),
      if_neg (show ¬ msg.Command = lit "PART" by rw [h]; decide),
      if_pos h,
      if_pos hlen]
  · unfold handleIRCMessage
    rw [if_neg (show ¬ msg.Command = lit "PRIVMSG" by rw [h]; decide),
      if_neg (show ¬ msg.Command = lit "JOIN" by rw [h]; decide),
      if_neg (show ¬ msg.Command = lit "PART" by rw [h]; decide),
      if_neg (show ¬ msg.Command = lit "NICK" by rw [h]; decide),
      if_pos h,
      if_pos hlen]
  · unfold handleIRCMessage
    rw [if_neg (show ¬ msg.Command = lit "PRIVMSG" by rw [h]; decide),
      if_neg (show ¬ msg.Command = lit "JOIN" by rw [h]; decide),
      if_neg (show ¬ msg.Command = lit "PART" by rw [h]; decide),
      if_neg (show ¬ msg.Command = lit "NICK" by rw [h]; decide),
      if_neg (show ¬ msg.Command = lit "TOPIC" by rw [h]; decide),
      if_pos h,
      if_pos hlen]
  · unfold handleIRCMessage
    rw [if_neg (show ¬ msg.Command = lit "PRIVMSG" by rw [h]; decide),
      if_neg (show ¬ msg.Command = lit "JOIN" by rw [h]; decide),
      if_neg (show ¬ msg.Command = lit "PART" by rw [h]; decide),
      if_neg (show ¬ msg.Command = lit "NICK" by rw [h]; decide),
      if_neg (show ¬ msg.Command = lit "TOPIC" by rw [h]; decide),
      if_neg (show ¬ msg.Command = lit "353" by rw [h]; decide),
      if_neg (show ¬ msg.Command = lit "NOTICE" by rw [h]; decide),
      if_pos (Or.inl h),
      if_pos hlen]
  · unfold handleIRCMessage
    rw [if_neg (show ¬ msg.Command = lit "PRIVMSG" by rw [h]; decide),
      if_neg (show ¬ msg.Command = lit "JOIN" by rw [h]; decide),
      if_neg (show ¬ msg.Command = lit "PART" by rw [h]; decide),
      if_neg (show ¬ msg.Command = lit "NICK" by rw [h]; decide),
      if_neg (show ¬ msg.Command = lit "TOPIC" by rw [h]; decide),
      if_neg (show ¬ msg.Command = lit "353" by rw [h]; decide),
      if_neg (show ¬ msg.Command = lit "NOTICE" by rw [h]; decide),
      if_pos (Or.inr (Or.inl h)),
      if_pos hlen]
  · unfold handleIRCMessage
    rw [if_neg (show ¬ msg.Command = lit "PRIVMSG" by rw [h]; decide),
      if_neg (show ¬ msg.Command = lit "JOIN" by rw [h]; decide),
      if_neg (show ¬ msg.Command = lit "PART" by rw [h]; decide),
      if_neg (show ¬ msg.Command = lit "NICK" by rw [h]; decide),
      if_neg (show ¬ msg.Command = lit "TOPIC" by rw [h]; decide),
      if_neg (show ¬ msg.Command = lit "353" by rw [h]; decide),
      if_neg (show ¬ msg.Command = lit "NOTICE" by rw [h]; decide),
      if_pos (Or.inr (Or.inr (Or.inl h))),
      if_pos hlen]
  · unfold handleIRCMessage
    rw [if_neg (show ¬ msg.Command = lit "PRIVMSG" by rw [h]; decide),
      if_neg (show ¬ msg.Command = lit "JOIN" by rw [h]; decide),
      if_neg (show ¬ msg.Command = lit "PART" by rw [h]; decide),
      if_neg (show ¬ msg.Command = lit "NICK" by rw [h]; decide),
      if_neg (show ¬ msg.Command = lit "TOPIC" by rw [h]; decide),
      if_neg (show ¬ msg.Command = lit "353" by rw [h]; decide),
      if_neg (show ¬ msg.Command = lit "NOTICE" by rw [h]; decide),
      if_pos (Or.inr (Or.inr (Or.inr (Or.inl h)))),
      if_pos hlen]
  · unfold handleIRCMessage
    rw [if_neg (show ¬ msg.Command = lit "PRIVMSG" by rw [h]; decide),
      if_neg (show ¬ msg.Command = lit "JOIN" by rw [h]; decide),
      if_neg (show ¬ msg.Command = lit "PART" by rw [h]; decide),
      if_neg (show ¬ msg.Command = lit "NICK" by rw [h]; decide),
      if_neg (show ¬ msg.Command = lit "TOPIC" by rw [h]; decide),
      if_neg (show ¬ msg.Command = lit "353" by rw [h]; decide),
      if_neg (show ¬ msg.Command = lit "NOTICE" by rw [h]; decide),
      if_pos (Or.inr (Or.inr (Or.inr (Or.inr h)))),
      if_pos hlen]
  · unfold handleIRCMessage
    rw [if_neg (show ¬ msg.Command = lit "PRIVMSG" by rw [h]; decide),
      if_neg (show ¬ msg.Command = lit "JOIN" by rw [h]; decide),
      if_neg (show ¬ msg.Command = lit "PART" by rw [h]; decide),
      if_neg (show ¬ msg.Command = lit "NICK" by rw [h]; decide),
      if_neg (show ¬ msg.Command = lit "TOPIC" by rw [h]; decide),
      if_neg (show ¬ msg.Command = lit "353" by rw [h]; decide),
      if_neg (show ¬ msg.Command = lit "NOTICE" by rw [h]; decide),
      if_neg (show ¬ (msg.Command = lit "311" ∨ msg.Command = lit "312" ∨ msg.Command = lit "313"
          ∨ msg.Command = lit "317" ∨ msg.Command = lit "318") by rw [h]; decide),
      if_pos h,
      if_pos hlen]

/-- A message of a type without a case is dropped without an event. -/
theorem handleIRCMessage_unhandled (now : GoString) (userID : Int) (msg : Message) (w : World)
    (hn : msg.Command ∉ handledCommands) : handleIRCMessage now userID msg w = some w := by
  have ne : ∀ t, t ∈ handledCommands → msg.Command ≠ t := fun t ht h => hn (h ▸ ht)
  have hw : ¬ (msg.Command = lit "311" ∨ msg.Command = lit "312" ∨ msg.Command = lit "313"
      ∨ msg.Command = lit "317" ∨ msg.Command = lit "318") := by
    rintro (h | h | h | h | h)
    · exact ne _ (by decide) h
    · exact ne _ (by decide) h
    · exact ne _ (by decide) h
    · exact ne _ (by decide) h
    · exact ne _ (by decide) h
  unfold handleIRCMessage
  rw [if_neg (ne (lit "PRIVMSG") (by decide)), if_neg (ne (lit "JOIN") (by decide)),
    if_neg (ne (lit "PART") (by decide)), if_neg (ne (lit "NICK") (by decide)),
    if_neg (ne (lit "TOPIC") (by decide)), if_neg (ne (lit "353") (by decide)),
    if_neg (ne (lit "NOTICE") (by decide)), if_neg hw, if_neg (ne (lit "322") (by decide)),
    if_neg (ne (lit "323") (by decide))]

/-- The line `wireLine` gives for each of the ten types, spelled out. -/
theorem wireLine_grammar (d : Fields) (data : Option Fields) :
    wireLine (lit "join") (some d) = some (lit "JOIN " ++ d.Channel)
      ∧ wireLine (lit "part") (some d)
          = some (if d.Message = [] then lit "PART " ++ d.Channel
                  else lit "PART " ++ d.Channel ++ lit " :" ++ d.Message)
      ∧ wireLine (lit "send_message") (some d)
          = some (lit "PRIVMSG " ++ d.Target ++ lit " :" ++ d.Message)
      ∧ wireLine (lit "change_nick") (some d) = some (lit "NICK " ++ d.Nick)
      ∧ wireLine (lit "set_topic") (some d)
          = some (if d.Topic = [] then lit "TOPIC " ++ d.Channel
                  else lit "TOPIC " ++ d.Channel ++ lit " :" ++ d.Topic)
      ∧ wireLine (lit "kick") (some d)
          = some (if d.Reason = [] then lit "KICK " ++ d.Channel ++ lit " " ++ d.Nick
                  else lit "KICK " ++ d.Channel ++ lit " " ++ d.Nick ++ lit " :" ++ d.Reason)
      ∧ wireLine (lit "invite") (some d) = some (lit "INVITE " ++ d.Nick ++ lit " " ++ d.Channel)
      ∧ wireLine (lit "whois") (some d) = some (lit "WHOIS " ++ d.Nick)
      ∧ wireLine (lit "list_channels") data = some (lit "LIST")
      ∧ wireLine (lit "get_nicklist") (some d) = some (lit "NAMES " ++ d.Channel) := by
  have hpart : wireLine (lit "part") (some d)
      = some (lit "PART " ++ d.Channel ++ (if d.Message = [] then [] else lit " :" ++ d.Message)) :=
    rfl
  have htopic : wireLine (lit "set_topic") (some d)
      = some (lit "TOPIC " ++ d.Channel ++ (if d.Topic = [] then [] else lit " :" ++ d.Topic)) :=
    rfl
  have hkick : wireLine (lit "kick") (some d)
      = some (lit "KICK " ++ d.Channel ++ lit " " ++ d.Nick
          ++ (if d.Reason = [] then [] else lit " :" ++ d.Reason)) := rfl
  refine ⟨rfl, ?_, rfl, rfl, ?_, ?_, rfl, rfl, rfl, rfl⟩
  · rw [hpart]
    by_cases h : d.Message = []
    · rw [if_pos h, if_pos h, List.append_nil]
    · rw [if_neg h, if_neg h]
      simp only [List.append_assoc]
  · rw [htopic]
    by_cases h : d.Topic = []
    · rw [if_pos h, if_pos h, List.append_nil]
    · rw [if_neg h, if_neg h]
      simp only [List.append_assoc]
  · rw [hkick]
    by_cases h : d.Reason = []
    · rw [if_pos h, if_pos h, List.append_nil]
    · rw [if_neg h, if_neg h]
      simp only [List.append_assoc]

/-- A command of a type without a case (not `connect`, not `disconnect`, none of
the ten wire-building types) changes nothing. -/
theorem handleCommand_unknown (env : Env) (cmd : Command) (w : World)
    (hw : cmd.Type_ ∉ wireTypes) (hc : cmd.Type_ ≠ lit "connect")
    (hd : cmd.Type_ ≠ lit "disconnect") : handleCommand env cmd w = w := by
  have ne : ∀ t, t ∈ wireTypes → cmd.Type_ ≠ t := fun t ht h => hw (h ▸ ht)
  unfold handleCommand
  rw [if_neg hc]
  cases hs : w.sessions cmd.UserID with
  | none => rfl
  | some p =>
    simp only []
    rw [if_neg (ne (lit "join") (by decide)), if_neg (ne (lit "part") (by decide)),
      if_neg (ne (lit "send_message") (by decide)), if_neg (ne (lit "change_nick") (by decide)),
      if_neg (ne (lit "set_topic") (by decide)), if_neg (ne (lit "kick") (by decide)),
      if_neg (ne (lit "invite") (by decide)), if_neg (ne (lit "whois") (by decide)),
      if_neg (ne (lit "list_channels") (by decide)), if_neg (ne (lit "get_nicklist") (by decide)),
      if_neg hd]

theorem oneWriteLine_of_wireLine (env : Env) (cmd : Command) (w : World) (p : Nat)
    (sess : IRCSession) (line : GoString)
    (hs : w.sessions cmd.UserID = some p) (hp : w.heap[p]? = some sess)
    (hl : wireLine cmd.Type_ cmd.Data = some line) :
    oneWriteLine env cmd w p sess line := by
  have hc := wireLine_ne_connect _ _ _ hl
  have hlt : p < w.heap.length := (List.getElem?_eq_some.1 hp).1
  unfold oneWriteLine
  rw [handleCommand_wire env cmd w p line hs hc hl]
  cases hallow : (sess.rateLimiter.Allow env.now).2 with
  | false =>
    rw [writeOrError_denied env cmd.UserID p line w sess hp hallow]
    refine ⟨⟨{ sess with rateLimiter := (sess.rateLimiter.Allow env.now).1,
                         writeLineCalls := sess.writeLineCalls ++ [line] }, ?_, rfl⟩, ?_⟩
    · simp [hlt]
    · intro q hq
      simp [List.getElem?_set, Ne.symm hq]
  | true =>
    rw [writeOrError_allowed env cmd.UserID p line w sess hp hallow]
    refine ⟨⟨{ sess with rateLimiter := (sess.rateLimiter.Allow env.now).1,
                         writeLineCalls := sess.writeLineCalls ++ [line],
                         written := sess.written ++ [line] }, ?_, rfl⟩, ?_⟩
    · simp [hlt]
    · intro q hq
      simp [List.getElem?_set, Ne.symm hq]

/-- What `handleIRCMessage` does on a `PRIVMSG` with at least two parameters: a
text that is not `wrapped` is published unchanged as `irc:message`; a `wrapped`
text of more than 8 bytes is published as `irc:action` without its first 8
bytes and its last byte, whatever those first 8 bytes are. -/
theorem handleIRCMessage_privmsg (now : GoString) (userID : Int) (msg : Message) (w : World)
    (target text : GoString) (rest : List GoString)
    (hc : msg.Command = lit "PRIVMSG") (hp : msg.Params = target :: text :: rest) :
    (¬ wrapped text → handleIRCMessage now userID msg w
        = some { w with events := w.events
            ++ [chatEvent (lit "irc:message") now userID msg.Name target text] })
      ∧ (wrapped text → 8 < text.length → handleIRCMessage now userID msg w
          = some { w with events := w.events
              ++ [chatEvent (lit "irc:action") now userID msg.Name target
                    ((text.take (text.length - 1)).drop 8)] }) := by
  have hlen : ¬ (target :: text :: rest).length < 2 := by simp
  have hi0 : goIndex (target :: text :: rest) 0 = some target := by simp [goIndex]
  have hi1 : goIndex (target :: text :: rest) 1 = some text := by simp [goIndex]
  unfold handleIRCMessage
  rw [if_pos hc, hp, if_neg hlen, hi0, hi1, Option.some_bind, Option.some_bind, isAction_eq,
    Option.some_bind]
  constructor
  · intro hnw
    have hnw1 : ¬ (8 ≤ text.length ∧ text.take 1 = [1] ∧ text.drop (text.length - 1) = [1]) :=
      hnw
    rw [decide_eq_false hnw1]
    rfl
  · intro hw h8
    have hw1 : 8 ≤ text.length ∧ text.take 1 = [1] ∧ text.drop (text.length - 1) = [1] := hw
    have hsl := goSlice_of_le text 8 ((text.length : Int) - 1) (by norm_num) (by omega)
      (by omega)
    have hnat : ((text.length : Int) - 1).toNat = text.length - 1 := by omega
    rw [decide_eq_true hw1, if_pos rfl, hsl, hnat]
    rfl

/-- A text of the CTCP action form `\x01ACTION <body>\x01` is `wrapped`, longer
than 8 bytes, and what is left of it without its first 8 bytes and its last
byte is the body. -/
theorem action_form (body : GoString) :
    wrapped (1 :: (lit "ACTION " ++ body ++ [1]))
      ∧ 8 < (1 :: (lit "ACTION " ++ body ++ [1])).length
      ∧ ((1 :: (lit "ACTION " ++ body ++ [1])).take
          ((1 :: (lit "ACTION " ++ body ++ [1])).length - 1)).drop 8 = body := by
  have h7 : lit "ACTION " = [65, 67, 84, 73, 79, 78, 32] := by decide
  have hlen : (1 :: (lit "ACTION " ++ body ++ [1])).length = body.length + 9 := by
    simp [h7]
  refine ⟨⟨by omega, rfl, ?_⟩, by omega, ?_⟩
  · rw [hlen, h7]
    simp
  · rw [hlen, h7]
    simp

/-! ## Lemmas: teardown -/

/-- The `disconnect` case of `handleCommand` on a registered session. -/
theorem handleCommand_disconnect (env : Env) (cmd : Command) (w : World) (p : Nat)
    (sess : IRCSession) (ht : cmd.Type_ = lit "disconnect")
    (hs : w.sessions cmd.UserID = some p) (hp : w.heap[p]? = some sess) :
    handleCommand env cmd w =
      { heap := w.heap.set p { sess with cancelled := true, connClosed := true },
        sessions := Function.update w.sessions cmd.UserID none,
        events := w.events ++ [disconnectedEvent cmd.UserID] } := by
  unfold handleCommand
  rw [if_neg (show ¬ cmd.Type_ = lit "connect" by rw [ht]; decide)]
  simp only [hs]
  rw [if_neg (show ¬ cmd.Type_ = lit "join" by rw [ht]; decide),
    if_neg (show ¬ cmd.Type_ = lit "part" by rw [ht]; decide),
    if_neg (show ¬ cmd.Type_ = lit "send_message" by rw [ht]; decide),
    if_neg (show ¬ cmd.Type_ = lit "change_nick" by rw [ht]; decide),
    if_neg (show ¬ cmd.Type_ = lit "set_topic" by rw [ht]; decide),
    if_neg (show ¬ cmd.Type_ = lit "kick" by rw [ht]; decide),
    if_neg (show ¬ cmd.Type_ = lit "invite" by rw [ht]; decide),
    if_neg (show ¬ cmd.Type_ = lit "whois" by rw [ht]; decide),
    if_neg (show ¬ cmd.Type_ = lit "list_channels" by rw [ht]; decide),
    if_neg (show ¬ cmd.Type_ = lit "get_nicklist" by rw [ht]; decide),
    if_pos ht]
  simp only [hp]
  rfl

/-- The failure exit of the read loop of the session at `p`. -/
theorem readLoopFail_eq (p : Nat) (err : GoString) (w : World) (sess : IRCSession)
    (hp : w.heap[p]? = some sess) :
    readLoopFail p err w =
      { heap := w.heap.set p { sess with connClosed := true, cancelled := true },
        sessions := Function.update w.sessions sess.UserID none,
        events := w.events ++ [errorEvent sess.UserID err] } := by
  have hlt : p < w.heap.length := (List.getElem?_eq_some.1 hp).1
  simp [readLoopFail, readLoopFailDelete, readLoopFailCancel, readLoopFailClose,
    readLoopFailPublish, publishEvent, errorEvent, hp, hlt]

/-- A `disconnect` for a user without a registry entry changes nothing. -/
theorem handleCommand_disconnect_absent (env : Env) (cmd : Command) (w : World)
    (ht : cmd.Type_ = lit "disconnect") (hs : w.sessions cmd.UserID = none) :
    handleCommand env cmd w = w := by
  unfold handleCommand
  rw [if_neg (show ¬ cmd.Type_ = lit "connect" by rw [ht]; decide)]
  simp only [hs]

/-- The failure exit of a session leaves the registry entry of every other user
id as it was. -/
theorem readLoopFail_other_users (p : Nat) (err : GoString) (w : World) (sess : IRCSession)
    (hp : w.heap[p]? = some sess) (u : Int) (hu : u ≠ sess.UserID) :
    (readLoopFail p err w).sessions u = w.sessions u := by
  rw [readLoopFail_eq p err w sess hp]
  exact Function.update_noteq hu _ _

/-! ## Lemmas: flood bound -/

/-- One `Allow` call: an admitted call is paid for by one token, and the refill
is at most the elapsed time multiplied by the rate. -/
theorem Allow_pays (r : RateLimiter) (now : ℚ) :
    ((if (r.Allow now).2 = true then 1 else 0 : ℚ)) + (r.Allow now).1.tokens
        ≤ r.tokens + r.refillRate * (now - r.lastRefill)
      ∧ ((if (r.Allow now).2 = true then 1 else 0 : ℚ)) + (r.Allow now).1.tokens
        ≤ r.maxTokens := by
  have h1 : min r.maxTokens (r.tokens + (now - r.lastRefill) * r.refillRate)
      ≤ r.tokens + r.refillRate * (now - r.lastRefill) := by
    have := min_le_right r.maxTokens (r.tokens + (now - r.lastRefill) * r.refillRate)
    linarith
  have h2 : min r.maxTokens (r.tokens + (now - r.lastRefill) * r.refillRate) ≤ r.maxTokens :=
    min_le_left _ _
  by_cases h : min r.maxTokens (r.tokens + (now - r.lastRefill) * r.refillRate) ≥ 1
  · have e : r.Allow now
        = ({ r with tokens := min r.maxTokens (r.tokens + (now - r.lastRefill) * r.refillRate) - 1,
                    lastRefill := now }, true) := by
      unfold RateLimiter.Allow
      simp only [h, if_true]
    rw [e]
    simp only [if_true]
    constructor <;> linarith
  · have e : r.Allow now
        = ({ r with tokens := min r.maxTokens (r.tokens + (now - r.lastRefill) * r.refillRate),
                    lastRefill := now }, false) := by
      unfold RateLimiter.Allow
      simp only [h, if_false]
    rw [e]
    simp only [Bool.false_eq_true, if_false, zero_add]
    exact ⟨h1, h2⟩

theorem count_true_cons (b : Bool) (l : List Bool) :
    (((b :: l).count true : Nat) : ℚ) = (if b = true then 1 else 0) + ((l.count true : Nat) : ℚ) := by
  cases b
  · simp
  · simp [add_comm]

/-- Along any sequence of calls, the admitted calls and the tokens left are paid
for by the tokens at the start and the refill over the elapsed time. -/
theorem allowSeq_count_le (ts : List ℚ) :
    ∀ r : RateLimiter,
      (((allowSeq r ts).2.count true : Nat) : ℚ) + (allowSeq r ts).1.tokens
        ≤ r.tokens + r.refillRate * (ts.getLastD r.lastRefill - r.lastRefill) := by
  induction ts with
  | nil =>
    intro r
    simp [allowSeq]
  | cons t ts ih =>
    intro r
    have h1 := (Allow_pays r t).1
    have h2 := ih (r.Allow t).1
    rw [Allow_refillRate, Allow_lastRefill] at h2
    rw [allowSeq, count_true_cons, List.getLastD_cons]
    simp only []
    have hexp : r.refillRate * (ts.getLastD t - r.lastRefill)
        = r.refillRate * (t - r.lastRefill) + r.refillRate * (ts.getLastD t - t) := by ring
    rw [hexp]
    linarith

/-- The answers to the first calls of a sequence do not depend on later calls. -/
theorem allowSeq_take (ts post : List ℚ) :
    ∀ r : RateLimiter, ((allowSeq r (ts ++ post)).2).take ts.length = (allowSeq r ts).2 := by
  induction ts with
  | nil =>
    intro r
    simp [allowSeq]
  | cons t ts ih =>
    intro r
    rw [List.cons_append, allowSeq, allowSeq, List.length_cons, List.take_succ_cons, ih]

/-- The flood bound for a run of calls `a :: rest` made on a limiter within its
invariant, whatever calls follow. -/
theorem run_count_le (r : RateLimiter) (a : ℚ) (rest post : List ℚ)
    (h0 : 0 ≤ r.tokens) (hmax : r.tokens ≤ r.maxTokens) (hrate : 0 ≤ r.refillRate)
    (hch : List.Chain (fun x y => x ≤ y) r.lastRefill (a :: (rest ++ post))) :
    ((((allowSeq r (a :: (rest ++ post))).2.take (rest.length + 1)).count true : Nat) : ℚ)
      ≤ r.maxTokens + r.refillRate * (rest.getLastD a - a) := by
  rcases List.chain_cons.1 hch with ⟨hle, hch1⟩
  have hb := Allow_tokens_bounds r a h0 hmax hrate hle
  have hpay := (Allow_pays r a).2
  have hpot := allowSeq_count_le rest (r.Allow a).1
  rw [Allow_refillRate, Allow_lastRefill] at hpot
  have hinv := allowSeq_tokens_bounds (rest ++ post) (r.Allow a).1 hb.1
    (by rw [Allow_maxTokens]; exact hb.2) (by rw [Allow_refillRate]; exact hrate)
    (by rw [Allow_lastRefill]; exact hch1) rest.length
  rw [List.take_left' rfl] at hinv
  rw [allowSeq, List.take_succ_cons, allowSeq_take, count_true_cons]
  linarith [hinv.1]

/-- The flood bound for a run of calls inside a longer sequence. -/
theorem run_count_le_from (pre : List ℚ) (a : ℚ) (rest post : List ℚ) :
    ∀ r : RateLimiter, 0 ≤ r.tokens → r.tokens ≤ r.maxTokens → 0 ≤ r.refillRate →
      List.Chain (fun x y => x ≤ y) r.lastRefill (pre ++ a :: (rest ++ post)) →
      (((((allowSeq r (pre ++ a :: (rest ++ post))).2.drop pre.length).take
          (rest.length + 1)).count true : Nat) : ℚ)
        ≤ r.maxTokens + r.refillRate * (rest.getLastD a - a) := by
  induction pre with
  | nil =>
    intro r h0 hmax hrate hch
    simpa using run_count_le r a rest post h0 hmax hrate hch
  | cons t pre ih =>
    intro r h0 hmax hrate hch
    rcases List.chain_cons.1 hch with ⟨hle, hch1⟩
    have hb := Allow_tokens_bounds r t h0 hmax hrate hle
    have h := ih (r.Allow t).1 hb.1 (by rw [Allow_maxTokens]; exact hb.2)
      (by rw [Allow_refillRate]; exact hrate) (by rw [Allow_lastRefill]; exact hch1)
    rw [Allow_maxTokens, Allow_refillRate] at h
    simpa [allowSeq] using h

/-! ## Lemmas: name lists -/

/-- What `range` decodes at a byte: the rune is a space exactly when the byte is,
and the bytes of the rune that are passed over are never spaces. -/
theorem decodeRune_space (b : Nat) (rest : GoString) :
    ((decodeRune (b :: rest)).1 = 32 ↔ b = 32)
      ∧ (∀ x ∈ rest.take ((decodeRune (b :: rest)).2 - 1), x ≠ 32) := by
  rcases rest with _ | ⟨b1, _ | ⟨b2, _ | ⟨b3, rest⟩⟩⟩ <;>
    simp only [decodeRune, runeError] <;> split_ifs <;>
    simp <;> omega

theorem scanWords_space (res : List GoString) (cur cs : GoString) :
    scanWords res cur (32 :: cs) = scanWords (if cur ≠ [] then res ++ [cur] else res) [] cs := by
  rw [scanWords, if_pos rfl]

theorem scanWords_other (res : List GoString) (cur cs : GoString) (c : Nat) (h : c ≠ 32) :
    scanWords res cur (c :: cs) = scanWords res (cur ++ [c]) cs := by
  rw [scanWords, if_neg h]

/-- The loop of `splitNames`, run on the part `suf` of `s` that is still to read,
ends in a state whose final flush is the scan of `suf`. -/
theorem splitNames_loop_scan (s : GoString) (suf : GoString) :
    ∀ (pre : GoString) (skip : Nat) (res : List GoString) (start : Nat),
      pre ++ suf = s → start ≤ pre.length → (∀ x ∈ suf.take skip, x ≠ 32) →
      ∃ (res1 : List GoString) (start1 : Nat),
        (runesFrom skip pre.length suf).foldl (splitNamesStep s) (some (res, (start : Int)))
            = some (res1, (start1 : Int))
          ∧ start1 ≤ s.length
          ∧ (if start1 < s.length then res1 ++ [s.drop start1] else res1)
              = scanWords res (pre.drop start) suf := by
  induction suf with
  | nil =>
    intro pre skip res start hs hst _
    rw [List.append_nil] at hs
    subst hs
    have hnil : runesFrom skip pre.length [] = [] := by
      cases skip <;> rfl
    refine ⟨res, start, by rw [hnil]; rfl, hst, ?_⟩
    rw [scanWords]
    by_cases hlt : start < pre.length
    · have : pre.drop start ≠ [] := by
        intro h
        have := List.drop_eq_nil_iff.1 h
        omega
      rw [if_pos hlt, if_pos this]
    · have : pre.drop start = [] := List.drop_eq_nil_iff.2 (by omega)
      rw [if_neg hlt, this, if_neg (by simp)]
  | cons b rest ih =>
    intro pre skip res start hs hst hskip
    have hs1 : (pre ++ [b]) ++ rest = s := by
      rw [← hs]
      simp
    have hlen1 : (pre ++ [b]).length = pre.length + 1 := by simp
    have hdrop : (pre ++ [b]).drop start = pre.drop start ++ [b] :=
      List.drop_append_of_le_length hst
    cases skip with
    | succ k =>
      have hb : b ≠ 32 := hskip b (by simp)
      have hk : ∀ x ∈ rest.take k, x ≠ 32 := by
        intro x hx
        exact hskip x (by simp [hx])
      obtain ⟨res1, start1, hf, hle, hfin⟩ := ih (pre ++ [b]) k res start hs1 (by omega) hk
      rw [hlen1] at hf
      refine ⟨res1, start1, ?_, hle, ?_⟩
      · rw [runesFrom]
        exact hf
      · rw [hfin, hdrop, scanWords_other _ _ _ _ hb]
    | zero =>
      have hd := decodeRune_space b rest
      rw [runesFrom, List.foldl_cons]
      by_cases hb : b = 32
      · have hr : (decodeRune (b :: rest)).1 = 32 := hd.1.2 hb
        by_cases hlt : start < pre.length
        · have hsl : goSlice s (start : Int) (pre.length : Int) = some (pre.drop start) := by
            rw [goSlice_of_le s _ _ (by omega) (by omega)
              (by rw [← hs]; simp only [List.length_append, List.length_cons]; omega)]
            simp [← hs]
          have hstep : splitNamesStep s (some (res, (start : Int)))
              (pre.length, (decodeRune (b :: rest)).1)
                = some (res ++ [pre.drop start], ((pre.length + 1 : Nat) : Int)) := by
            have hlt1 : (start : Int) < (pre.length : Int) := by omega
            simp [splitNamesStep, hr, hlt1, hsl]
          obtain ⟨res1, start1, hf, hle, hfin⟩ :=
            ih (pre ++ [b]) ((decodeRune (b :: rest)).2 - 1) (res ++ [pre.drop start])
              (pre.length + 1) hs1 (by omega) hd.2
          rw [hlen1] at hf
          refine ⟨res1, start1, ?_, hle, ?_⟩
          · rw [hstep]
            exact hf
          · have hne : pre.drop start ≠ [] := by
              intro h
              have := List.drop_eq_nil_iff.1 h
              omega
            have hnil : (pre ++ [b]).drop (pre.length + 1) = [] :=
              List.drop_eq_nil_iff.2 (by omega)
            rw [hfin, hnil, hb, scanWords_space, if_pos hne]
        · have hst1 : start = pre.length := by omega
          have hstep : splitNamesStep s (some (res, (start : Int)))
              (pre.length, (decodeRune (b :: rest)).1)
                = some (res, ((pre.length + 1 : Nat) : Int)) := by
            have hlt1 : ¬ (start : Int) < (pre.length : Int) := by omega
            simp [splitNamesStep, hr, hlt1]
          obtain ⟨res1, start1, hf, hle, hfin⟩ :=
            ih (pre ++ [b]) ((decodeRune (b :: rest)).2 - 1) res
              (pre.length + 1) hs1 (by omega) hd.2
          rw [hlen1] at hf
          refine ⟨res1, start1, ?_, hle, ?_⟩
          · rw [hstep]
            exact hf
          · have hnil0 : pre.drop start = [] := List.drop_eq_nil_iff.2 (by omega)
            have hnil : (pre ++ [b]).drop (pre.length + 1) = [] :=
              List.drop_eq_nil_iff.2 (by omega)
            rw [hfin, hnil, hb, scanWords_space, hnil0, if_neg (by simp)]
      · have hr : (decodeRune (b :: rest)).1 ≠ 32 := fun h => hb (hd.1.1 h)
        have hstep : splitNamesStep s (some (res, (start : Int)))
            (pre.length, (decodeRune (b :: rest)).1) = some (res, (start : Int)) := by
          simp [splitNamesStep, hr]
        obtain ⟨res1, start1, hf, hle, hfin⟩ :=
          ih (pre ++ [b]) ((decodeRune (b :: rest)).2 - 1) res start hs1 (by omega) hd.2
        rw [hlen1] at hf
        refine ⟨res1, start1, ?_, hle, ?_⟩
        · rw [hstep]
          exact hf
        · rw [hfin, hdrop, scanWords_other _ _ _ _ hb]

theorem modifyHead_nil_append (l : List GoString) :
    l.modifyHead (fun x => [] ++ x) = l := by
  cases l <;> simp [List.modifyHead]

/-- The scan computes the split at spaces with the empty pieces dropped. -/
theorem scanWords_eq (s : GoString) :
    ∀ (res : List GoString) (cur : GoString),
      scanWords res cur s
        = res ++ ((s.splitOn 32).modifyHead (fun x => cur ++ x)).filter
            (fun piece => decide (piece ≠ [])) := by
  induction s with
  | nil =>
    intro res cur
    rw [scanWords]
    by_cases h : cur = []
    · simp [h, List.modifyHead]
    · simp [h, List.modifyHead]
  | cons c cs ih =>
    intro res cur
    by_cases hc : c = 32
    · subst hc
      rw [scanWords_space, ih, modifyHead_nil_append]
      have hsp : List.splitOn 32 (32 :: cs) = [] :: List.splitOn 32 cs := by
        simp [List.splitOn]
      rw [hsp]
      by_cases h : cur = []
      · simp [h, List.modifyHead]
      · simp [h, List.modifyHead]
    · rw [scanWords_other _ _ _ _ hc, ih]
      have hsp : List.splitOn 32 (c :: cs) = (List.splitOn 32 cs).modifyHead (List.cons c) := by
        simp [List.splitOn, hc]
      rw [hsp, List.modifyHead_modifyHead]
      have hf : (fun x => cur ++ [c] ++ x) = ((fun x => cur ++ x) ∘ List.cons c) := by
        funext x
        simp
      rw [hf]

theorem scanWords_nil (s : GoString) : scanWords [] [] s = spaceFields s := by
  rw [scanWords_eq, modifyHead_nil_append]
  rfl

/-- Every word of the scan is non-empty and free of spaces. -/
theorem scanWords_mem (s : GoString) :
    ∀ (res : List GoString) (cur : GoString),
      (∀ x ∈ res, x ≠ [] ∧ 32 ∉ x) → 32 ∉ cur →
      ∀ x ∈ scanWords res cur s, x ≠ [] ∧ 32 ∉ x := by
  induction s with
  | nil =>
    intro res cur hres hcur x hx
    rw [scanWords] at hx
    by_cases h : cur = []
    · rw [if_neg (by simpa using h)] at hx
      exact hres x hx
    · rw [if_pos h] at hx
      rcases List.mem_append.1 hx with hx | hx
      · exact hres x hx
      · have : x = cur := by simpa using hx
        subst this
        exact ⟨h, hcur⟩
  | cons c cs ih =>
    intro res cur hres hcur x hx
    by_cases hc : c = 32
    · subst hc
      rw [scanWords_space] at hx
      refine ih _ [] ?_ (by simp) x hx
      intro y hy
      by_cases h : cur = []
      · rw [if_neg (by simpa using h)] at hy
        exact hres y hy
      · rw [if_pos h] at hy
        rcases List.mem_append.1 hy with hy | hy
        · exact hres y hy
        · have : y = cur := by simpa using hy
          subst this
          exact ⟨h, hcur⟩
    · rw [scanWords_other _ _ _ _ hc] at hx
      refine ih res (cur ++ [c]) hres ?_ x hx
      intro hmem
      rcases List.mem_append.1 hmem with hm | hm
      · exact hcur hm
      · have : 32 = c := by simpa using hm
        exact hc this.symm

theorem spaceFields_mem (s : GoString) : ∀ x ∈ spaceFields s, x ≠ [] ∧ 32 ∉ x := by
  rw [← scanWords_nil]
  exact scanWords_mem s [] [] (by simp) (by simp)

/-- Joining the words with single spaces and splitting again gives the words. -/
theorem spaceFields_join (l : List GoString) (h : ∀ x ∈ l, x ≠ [] ∧ 32 ∉ x) :
    spaceFields ([32].intercalate l) = l := by
  unfold spaceFields
  cases l with
  | nil => simp [List.intercalate]
  | cons a as =>
    rw [List.splitOn_intercalate _ 32 (fun x hx => (h x hx).2) (by simp)]
    exact List.filter_eq_self.2 (fun x hx => by simpa using (h x hx).1)

theorem splitNames_eq (s : GoString) : splitNames s = some (spaceFields s) := by
  obtain ⟨res1, start1, hf, hle, hfin⟩ :=
    splitNames_loop_scan s s [] 0 [] 0 (by simp) (by simp) (by simp)
  have hf1 : (runes s).foldl (splitNamesStep s) (some ([], 0)) = some (res1, (start1 : Int)) := by
    simpa [runes] using hf
  unfold splitNames
  rw [hf1, Option.some_bind]
  rw [List.drop_zero, scanWords_nil] at hfin
  by_cases hlt : start1 < s.length
  · have hlt1 : (start1 : Int) < (s.length : Int) := by omega
    rw [if_pos hlt] at hfin
    have hsl : goSlice s (start1 : Int) (s.length : Int) = some (s.drop start1) := by
      rw [goSlice_of_le s _ _ (by omega) (by omega) (le_refl _)]
      simp
    simp only [hlt1, if_true, hsl, Option.map_some', hfin]
  · have hlt1 : ¬ (start1 : Int) < (s.length : Int) := by omega
    rw [if_neg hlt] at hfin
    simp only [hlt1, if_false, hfin]

theorem foldl_append_singleton (l acc : List GoString) :
    l.foldl (fun names name => names ++ [name]) acc = acc ++ l := by
  induction l generalizing acc with
  | nil => simp
  | cons a l ih => rw [List.foldl_cons, ih]; simp

theorem parseNames_eq (s : GoString) : parseNames s = some (spaceFields s) := by
  unfold parseNames
  rw [splitNames_eq, Option.map_some', foldl_append_singleton, List.nil_append]

/-- The `353` case of `handleIRCMessage` on at least 4 parameters. -/
theorem handleIRCMessage_names (now : GoString) (userID : Int) (msg : Message) (w : World)
    (p0 p1 channel names : GoString) (rest : List GoString)
    (hc : msg.Command = lit "353") (hp : msg.Params = p0 :: p1 :: channel :: names :: rest) :
    handleIRCMessage now userID msg w
      = some { w with events := w.events
          ++ [nicklistEvent userID channel (spaceFields names)] } := by
  have hlen : ¬ (p0 :: p1 :: channel :: names :: rest).length < 4 := by simp
  have hi2 : goIndex (p0 :: p1 :: channel :: names :: rest) 2 = some channel := by
    simp [goIndex]
  have hi3 : goIndex (p0 :: p1 :: channel :: names :: rest) 3 = some names := by
    simp [goIndex]
  unfold handleIRCMessage
  rw [if_neg (show ¬ msg.Command = lit "PRIVMSG" by rw [hc]; decide),
    if_neg (show ¬ msg.Command = lit "JOIN" by rw [hc]; decide),
    if_neg (show ¬ msg.Command = lit "PART" by rw [hc]; decide),
    if_neg (show ¬ msg.Command = lit "NICK" by rw [hc]; decide),
    if_neg (show ¬ msg.Command = lit "TOPIC" by rw [hc]; decide),
    if_pos hc, hp, if_neg hlen, hi2, hi3, Option.some_bind, Option.some_bind, parseNames_eq]
  rfl

/-! ## Lemmas: float64 samples -/

set_option maxRecDepth 100000 in
/-- Known float64 values reproduced by the definitions: `float64(2^53 + 1)` is
`2^53`; `1` is `2^52 * 2^-52`; `Duration(29).Seconds()` is `2.9e-8`; and a
limiter of rate 1 and burst 1, emptied at 0 and polled at 0.1, 0.2 and 0.3
seconds, stores `0.1`, `0.2` and then `0.30000000000000004`. -/
theorem float64_samples :
    float64 9007199254740993 = ⟨4503599627370496, 1⟩
      ∧ float64 1 = ⟨4503599627370496, -52⟩
      ∧ Seconds 29 = ⟨8764712192206062, -78⟩
      ∧ ((NewRateLimiter64 (float64 1) 1 0).Allow 0).1.tokens = ⟨0, 0⟩
      ∧ (((NewRateLimiter64 (float64 1) 1 0).Allow 0).1.Allow 100000000).1.tokens
          = ⟨7205759403792794, -56⟩
      ∧ ((((NewRateLimiter64 (float64 1) 1 0).Allow 0).1.Allow 100000000).1.Allow
          200000000).1.tokens = ⟨7205759403792794, -55⟩
      ∧ (((((NewRateLimiter64 (float64 1) 1 0).Allow 0).1.Allow 100000000).1.Allow
          200000000).1.Allow 300000000).1.tokens = ⟨5404319552844596, -54⟩ := by
  decide

/-! ## Theorems -/

/-- C1 (defect): upstream `PRIVMSG` whose text is the 8 bytes `\x01ACTION\x01`
makes `handleIRCMessage` evaluate `message[8:7]`, a slice out of range: the
translator panics instead of completing. -/
theorem handleIRCMessage_panics_on_short_action (now : GoString) (userID : Int)
    (name target : GoString) (w : World) :
    handleIRCMessage now userID
      { Tags := [], Name := name, User := [], Host := [], Command := lit "PRIVMSG",
        Params := [target, 1 :: (lit "ACTION" ++ [1])] } w = none := by
  rfl

/-- C2 (defect): for a user name with no allowed character and the user id
100000, the nickname of `createSession` is `user100000`, which has 10 bytes,
more than the 9 the truncation step is there to enforce. -/
theorem createSessionNick_fallback_too_long :
    createSessionNick 100000 (lit "") = lit "user100000"
      ∧ (createSessionNick 100000 (lit "")).length = 10 := by
  decide

/-- C3: for every user name and every user id (negative ids included) the
nickname of `createSession` is non-empty and each of its characters is an ASCII
letter, an ASCII digit or one of `[ ] \ ` ^ { } -`. -/
theorem createSessionNick_nonempty_allowed (userID : Int) (username : GoString) :
    createSessionNick userID username ≠ []
      ∧ ∀ c ∈ createSessionNick userID username, isAllowedRune c = true := by
  have hsan : ∀ c ∈ sanitizeNick username, c ∈ allowed := sanitizeNick_mem username
  have hlit : ∀ c ∈ lit "user", c ∈ allowed := by decide
  have huser : ∀ c ∈ lit "user" ++ fmtInt userID, c ∈ allowed := by
    intro c hc
    rcases List.mem_append.1 hc with hc | hc
    · exact hlit c hc
    · exact fmtInt_allowed userID c hc
  have hne : lit "user" ++ fmtInt userID ≠ [] := by
    simp [lit]
  unfold createSessionNick
  simp only []
  split_ifs with h9 hnil hnil
  · exact ⟨hne, fun c hc => (allowed_iff c).1 (huser c hc)⟩
  · refine ⟨hnil, fun c hc => (allowed_iff c).1 ?_⟩
    rw [goSlice_nine _ h9, Option.getD_some] at hc
    exact hsan c (List.mem_of_mem_take hc)
  · exact ⟨hne, fun c hc => (allowed_iff c).1 (huser c hc)⟩
  · exact ⟨hnil, fun c hc => (allowed_iff c).1 (hsan c hc)⟩

/-- C4: `sanitizeNick` returns exactly the characters of the user name that are
allowed, in their order and with their multiplicities; and when that result is
non-empty, the nickname of `createSession` is its first 9 bytes (all of it when
it has at most 9). -/
theorem sanitizeNick_is_allowed_subsequence (userID : Int) (username : GoString) :
    sanitizeNick username = ((runes username).map Prod.snd).filter isAllowedRune
      ∧ (sanitizeNick username ≠ [] →
          createSessionNick userID username = (sanitizeNick username).take 9) := by
  constructor
  · rw [sanitizeNick_eq_filter]
    apply List.filter_congr
    intro c _
    by_cases h : c ∈ allowed
    · simp [h, (allowed_iff c).1 h]
    · have : isAllowedRune c = false := by
        cases hb : isAllowedRune c
        · rfl
        · exact absurd ((allowed_iff c).2 hb) h
      simp [h, this]
  · intro hne
    unfold createSessionNick
    simp only []
    by_cases h9 : (sanitizeNick username).length > 9
    · have hcut : (goSlice (sanitizeNick username) 0 9).getD []
          = (sanitizeNick username).take 9 := by
        rw [goSlice_nine _ h9, Option.getD_some]
      have hne9 : (sanitizeNick username).take 9 ≠ [] := by
        intro h
        have hlen := congrArg List.length h
        rw [List.length_take, List.length_nil] at hlen
        omega
      rw [if_pos h9, hcut, if_neg hne9]
    · rw [if_neg h9, if_neg hne]
      exact (List.take_of_length_le (by omega)).symm

set_option maxRecDepth 100000 in
/-- C4, at the two user names of the specification: `a!b@c#123456789` gives the
nickname `abc123456` and `al!ce` gives `alce`. -/
theorem sanitizeNick_is_allowed_subsequence_witness :
    sanitizeNick (lit "a!b@c#123456789") ≠ []
      ∧ sanitizeNick (lit "a!b@c#123456789") = lit "abc123456789"
      ∧ createSessionNick 7 (lit "a!b@c#123456789") = lit "abc123456"
      ∧ sanitizeNick (lit "al!ce") = lit "alce"
      ∧ createSessionNick 7 (lit "al!ce") = lit "alce" := by
  refine ⟨by decide, by decide, ?_, by decide, ?_⟩
  · rw [(sanitizeNick_is_allowed_subsequence 7 (lit "a!b@c#123456789")).2 (by decide)]
    decide
  · rw [(sanitizeNick_is_allowed_subsequence 7 (lit "al!ce")).2 (by decide)]
    decide

/-- C5, as stated, fails: after two successful `createSession` calls for user 7,
the second session is registered while the first, superseded one has neither
been cancelled nor had its transport closed. -/
theorem superseded_session_not_torn_down :
    (createAll 7 [(quietEnv 0, lit "alice")] World.init).sessions 7 = some 0
      ∧ (createAll 7 [(quietEnv 0, lit "alice"), (quietEnv 1, lit "alice")] World.init).sessions 7
          = some 1
      ∧ ((createAll 7 [(quietEnv 0, lit "alice"), (quietEnv 1, lit "alice")]
            World.init).heap[0]?).map (fun s => (s.cancelled, s.connClosed))
          = some (false, false) := by
  simp [createAll, createSession, quietEnv, World.init, newSession]

/-- C5, amended: after any non-empty run of successful `createSession` calls for
one user id, the registry maps that id to the session created last (and to no
other); `createSession` tears nothing down: every session that existed before is
exactly as it was, every session created by the run, superseded or not, is
neither cancelled nor closed; other user ids keep their entries and no event is
published. -/
theorem createSession_installs_last (userID : Int) (calls : List (Env × GoString)) (w : World)
    (hok : ∀ c ∈ calls, c.1.dialErr = none) (hne : calls ≠ []) :
    (createAll userID calls w).sessions userID = some (w.heap.length + calls.length - 1)
      ∧ (createAll userID calls w).heap.length = w.heap.length + calls.length
      ∧ (∀ (p : Nat) (s : IRCSession), w.heap[p]? = some s →
          (createAll userID calls w).heap[p]? = some s)
      ∧ (∀ (p : Nat) (s : IRCSession), w.heap.length ≤ p →
          (createAll userID calls w).heap[p]? = some s →
          s.UserID = userID ∧ s.cancelled = false ∧ s.connClosed = false)
      ∧ (∀ u, u ≠ userID → (createAll userID calls w).sessions u = w.sessions u)
      ∧ (createAll userID calls w).events = w.events := by
  obtain ⟨hheap, hev, hsess⟩ := createAll_eq userID calls w hok
  have hne : calls.length ≠ 0 := fun h => hne (List.length_eq_zero.1 h)
  refine ⟨?_, ?_, ?_, ?_, ?_, hev⟩
  · rw [hsess, if_neg hne, Function.update_same]
  · rw [hheap]
    simp
  · intro p s hp
    rw [hheap]
    have hlt : p < w.heap.length := (List.getElem?_eq_some.1 hp).1
    rw [List.getElem?_append_left hlt]
    exact hp
  · intro p s hle hp
    rw [hheap, List.getElem?_append_right hle, List.getElem?_map] at hp
    cases hc : calls[p - w.heap.length]? with
    | none =>
      rw [hc] at hp
      exact absurd hp (by simp)
    | some c =>
      rw [hc] at hp
      have hs : s = newSession c.1 userID c.2 (createSessionNick userID c.2) := by
        simpa using hp.symm
      subst hs
      exact ⟨rfl, rfl, rfl⟩
  · intro u hu
    rw [hsess, if_neg hne, Function.update_noteq hu]

/-- C5, amended, at two successive connects of user 7 from the initial state. -/
theorem createSession_installs_last_witness :
    (∀ c ∈ [(quietEnv 0, lit "alice"), (quietEnv 1, lit "alice")], c.1.dialErr = none)
      ∧ (createAll 7 [(quietEnv 0, lit "alice"), (quietEnv 1, lit "alice")] World.init).sessions 7
          = some 1 :=
  have hok : ∀ c ∈ [(quietEnv 0, lit "alice"), (quietEnv 1, lit "alice")], c.1.dialErr = none := by
    intro c hc
    simp only [List.mem_cons, List.mem_singleton, List.not_mem_nil, or_false] at hc
    rcases hc with rfl | rfl <;> rfl
  ⟨hok, (createSession_installs_last 7 [(quietEnv 0, lit "alice"), (quietEnv 1, lit "alice")]
    World.init hok (by simp)).1⟩

/-- C6, as stated, fails: a `join` whose channel is `#a\r\nQUIT` makes
`handleCommand` pass to `WriteLine`, and on to the transport, a string that
contains a carriage return and a line feed. -/
theorem join_line_carries_line_break :
    ((handleCommand (quietEnv 0) joinWithLineBreak (afterSends 0)).heap[0]?).map
        (fun s => (s.writeLineCalls, s.written))
      = some ([lit "JOIN #a" ++ [13, 10] ++ lit "QUIT"], [lit "JOIN #a" ++ [13, 10] ++ lit "QUIT"])
      ∧ ¬ noCRLF (lit "JOIN #a" ++ [13, 10] ++ lit "QUIT") := by
  constructor
  · have hl : lit "JOIN " ++ (lit "#a" ++ [13, 10] ++ lit "QUIT")
        = lit "JOIN #a" ++ [13, 10] ++ lit "QUIT" := by decide
    rw [afterSends_zero]
    simp [handleCommand, writeOrError, IRCSession.WriteLine, RateLimiter.Allow, newSession,
      NewRateLimiter, quietEnv, joinWithLineBreak, publishEvent, lit_connect, lit_join, noFields]
    exact hl
  · unfold noCRLF
    decide

/-- C6, amended: for every command of one of the ten wire-building types whose
payload decoded (`list_channels` needs none) and whose payload fields contain
neither a carriage return nor a line feed, `handleCommand` passes exactly one
string to `WriteLine`, and that string contains neither a carriage return nor a
line feed. -/
theorem wire_line_has_no_line_break (env : Env) (cmd : Command) (w : World) (p : Nat)
    (sess : IRCSession)
    (hty : cmd.Type_ ∈ wireTypes) (hdata : cmd.Data = none → cmd.Type_ = lit "list_channels")
    (hclean : ∀ d, cmd.Data = some d → d.noCRLF)
    (hs : w.sessions cmd.UserID = some p) (hp : w.heap[p]? = some sess) :
    ∃ (line : GoString) (sess1 : IRCSession),
      (handleCommand env cmd w).heap[p]? = some sess1
        ∧ sess1.writeLineCalls = sess.writeLineCalls ++ [line]
        ∧ noCRLF line := by
  obtain ⟨line, hl⟩ := wireLine_some cmd.Type_ cmd.Data hty hdata
  have hclean1 : noCRLF line := wireLine_noCRLF _ _ _ hl hclean
  have hc := wireLine_ne_connect _ _ _ hl
  have hlt : p < w.heap.length := (List.getElem?_eq_some.1 hp).1
  rw [handleCommand_wire env cmd w p line hs hc hl]
  cases hallow : (sess.rateLimiter.Allow env.now).2 with
  | false =>
    rw [writeOrError_denied env cmd.UserID p line w sess hp hallow]
    refine ⟨line, { sess with rateLimiter := (sess.rateLimiter.Allow env.now).1,
                              writeLineCalls := sess.writeLineCalls ++ [line] }, ?_, rfl, hclean1⟩
    simp [hlt]
  | true =>
    rw [writeOrError_allowed env cmd.UserID p line w sess hp hallow]
    refine ⟨line, { sess with rateLimiter := (sess.rateLimiter.Allow env.now).1,
                              writeLineCalls := sess.writeLineCalls ++ [line],
                              written := sess.written ++ [line] }, ?_, rfl, hclean1⟩
    simp [hlt]

/-- C6, amended, at `sendHi` (`hi` to `#go`) right after user 7 connected. -/
theorem wire_line_has_no_line_break_witness :
    sendHi.Type_ ∈ wireTypes
      ∧ (∀ d, sendHi.Data = some d → d.noCRLF)
      ∧ ∃ (line : GoString) (sess1 : IRCSession),
        (handleCommand (quietEnv 0) sendHi (afterSends 0)).heap[0]? = some sess1
          ∧ sess1.writeLineCalls
              = (newSession (quietEnv 0) 7 (lit "alice") (lit "alice")).writeLineCalls ++ [line]
          ∧ noCRLF line :=
  have hty : sendHi.Type_ ∈ wireTypes := by decide
  have hclean : ∀ d, sendHi.Data = some d → d.noCRLF := by
    intro d hd
    have hd1 : d = { noFields with Target := lit "#go", Message := lit "hi" } :=
      (Option.some.inj hd).symm
    subst hd1
    unfold Fields.noCRLF noCRLF
    decide
  ⟨hty, hclean, wire_line_has_no_line_break (quietEnv 0) sendHi (afterSends 0) 0
    (newSession (quietEnv 0) 7 (lit "alice") (lit "alice")) hty
    (fun h => absurd h (by simp [sendHi])) hclean
    (by rw [afterSends_zero]; simp [sendHi]) (by rw [afterSends_zero]; rfl)⟩

/-- C7: a limiter made by `NewRateLimiter(rate, burst)` and called `burst + 1`
times with no time elapsed since its creation answers `true` to the first
`burst` calls and `false` to call number `burst + 1`. This holds for every rate
and every burst count, in particular for rate > 0 and burst ≥ 1. -/
theorem burst_calls_allowed_then_denied (rate : ℚ) (burst : Nat) (t0 : ℚ) :
    (allowSeq (NewRateLimiter rate (burst : Int) t0) (List.replicate (burst + 1) t0)).2
      = List.replicate burst true ++ [false] := by
  have h := allowSeq_zero_elapsed burst (NewRateLimiter rate (burst : Int) t0)
    (by simp [NewRateLimiter]) (by simp [NewRateLimiter])
  simpa [NewRateLimiter] using h

/-- C8, as stated, fails: with refill rate 1/2 and burst 1 (both allowed by the
specification), created at time 0 and called at times 0 and 1, the second call
is denied although it comes a full second after the first. -/
theorem spaced_calls_denied_at_low_rate :
    (0 : ℚ) < 1 / 2 ∧ (1 : Int) ≥ 1 ∧ spacedFrom 0 [0, 1]
      ∧ (allowSeq (NewRateLimiter (1 / 2) 1 0) [0, 1]).2 = [true, false] := by
  refine ⟨by norm_num, by norm_num, ?_, ?_⟩
  · simp [spacedFrom]
  · simp only [allowSeq, NewRateLimiter, RateLimiter.Allow]
    norm_num

/-- C8, amended: when the refill rate is at least 1 token per second and the
burst at least 1, every call of a sequence whose first call is at or after the
creation and whose later calls each come at least one second after the previous
one answers `true`. -/
theorem spaced_calls_all_allowed (rate : ℚ) (burst : Nat) (t0 : ℚ) (times : List ℚ)
    (hrate : 1 ≤ rate) (hburst : 1 ≤ burst) (hsp : spacedFrom t0 times) :
    ∀ b ∈ (allowSeq (NewRateLimiter rate (burst : Int) t0) times).2, b = true := by
  have hb : (1 : ℚ) ≤ (burst : ℚ) := by exact_mod_cast hburst
  cases times with
  | nil =>
    intro b hb
    simp [allowSeq] at hb
  | cons t ts =>
    rcases hsp with ⟨hle, hch⟩
    have h1 := Allow_full_bucket (NewRateLimiter rate (burst : Int) t0) t
      (by simp [NewRateLimiter]) (by simpa [NewRateLimiter] using hb)
      (by simp only [NewRateLimiter]; linarith) (by simpa [NewRateLimiter] using hle)
    intro b hmem
    rw [allowSeq] at hmem
    rcases List.mem_cons.1 hmem with rfl | hmem
    · exact h1.1
    · exact allowSeq_spaced ts _ h1.2
        (by rw [Allow_maxTokens]; simpa [NewRateLimiter] using hb)
        (by rw [Allow_refillRate]; simpa [NewRateLimiter] using hrate)
        (by rw [Allow_lastRefill]; exact hch) b hmem

/-- C8, amended, at the default limiter (rate 1, burst 5) created at time 0 and
called at times 0, 1 and 5/2. -/
theorem spaced_calls_all_allowed_witness :
    (1 : ℚ) ≤ 1 ∧ 1 ≤ 5 ∧ spacedFrom 0 [0, 1, 5 / 2]
      ∧ ∀ b ∈ (allowSeq (NewRateLimiter 1 ((5 : Nat) : Int) 0) [0, 1, 5 / 2]).2, b = true :=
  have hsp : spacedFrom 0 [0, 1, 5 / 2] := by
    simp [spacedFrom]
    norm_num
  ⟨le_refl _, by decide, hsp,
    spaced_calls_all_allowed 1 5 0 [0, 1, 5 / 2] (le_refl _) (by decide) hsp⟩

set_option maxRecDepth 100000 in
/-- C9, as stated, fails in the program's float64 arithmetic: for the burst
`2 ^ 53 + 3 = 9007199254740995` the conversion `float64(burst)` rounds to
`2 ^ 53 + 4`, so right after `NewRateLimiter` the stored token count and
`maxTokens` are `9007199254740996`, above the burst. A call of `Allow` answers
`true` and leaves the same count, because `9007199254740996 - 1` rounds back
to `9007199254740996`. -/
theorem float64_burst_conversion_exceeds_burst :
    (NewRateLimiter64 (float64 1) 9007199254740995 0).tokens = ⟨4503599627370498, 1⟩
      ∧ (NewRateLimiter64 (float64 1) 9007199254740995 0).maxTokens = ⟨4503599627370498, 1⟩
      ∧ (((9007199254740995 : Int) : ℚ)
          < (NewRateLimiter64 (float64 1) 9007199254740995 0).tokens.toRat)
      ∧ ((NewRateLimiter64 (float64 1) 9007199254740995 0).Allow 0).2 = true
      ∧ (((9007199254740995 : Int) : ℚ)
          < ((NewRateLimiter64 (float64 1) 9007199254740995 0).Allow 0).1.tokens.toRat) := by
  have h1 : (NewRateLimiter64 (float64 1) 9007199254740995 0).tokens
      = ⟨4503599627370498, 1⟩ := by decide
  have h2 : (NewRateLimiter64 (float64 1) 9007199254740995 0).maxTokens
      = ⟨4503599627370498, 1⟩ := by decide
  have h3 : ((NewRateLimiter64 (float64 1) 9007199254740995 0).Allow 0).2 = true := by decide
  have h4 : ((NewRateLimiter64 (float64 1) 9007199254740995 0).Allow 0).1.tokens
      = ⟨4503599627370498, 1⟩ := by decide
  refine ⟨h1, h2, ?_, h3, ?_⟩
  · rw [h1]
    norm_num [F64.toRat]
  · rw [h4]
    norm_num [F64.toRat]

/-- C9, amended: in exact arithmetic, right after `NewRateLimiter` and after
every call of any sequence of `Allow` calls whose clock readings, starting from
the creation time, never decrease, the stored token count lies in `[0, burst]`
and `maxTokens` is still `burst`, whatever the calls answered. `k` is the number of calls made so far
(`k = 0`: just created). Holds for every rate ≥ 0 and every burst count. -/
theorem tokens_between_zero_and_burst (rate : ℚ) (burst : Nat) (t0 : ℚ) (times : List ℚ)
    (hrate : 0 ≤ rate) (hmono : List.Chain (fun a b => a ≤ b) t0 times) (k : Nat) :
    0 ≤ (allowSeq (NewRateLimiter rate (burst : Int) t0) (times.take k)).1.tokens
      ∧ (allowSeq (NewRateLimiter rate (burst : Int) t0) (times.take k)).1.tokens ≤ (burst : ℚ)
      ∧ (allowSeq (NewRateLimiter rate (burst : Int) t0) (times.take k)).1.maxTokens
          = (burst : ℚ) := by
  have h := allowSeq_tokens_bounds times (NewRateLimiter rate (burst : Int) t0)
    (by simp [NewRateLimiter]) (by simp [NewRateLimiter])
    (by simpa [NewRateLimiter] using hrate) (by simpa [NewRateLimiter] using hmono) k
  simpa [NewRateLimiter] using h

/-- C9 at the default limiter (rate 1, burst 5), created at time 0 and called at
times 0, 0 and 1: the bounds hold after the three calls. -/
theorem tokens_between_zero_and_burst_witness :
    (0 : ℚ) ≤ 1 ∧ List.Chain (fun a b : ℚ => a ≤ b) 0 [0, 0, 1]
      ∧ 0 ≤ (allowSeq (NewRateLimiter 1 ((5 : Nat) : Int) 0) ([0, 0, 1].take 3)).1.tokens
      ∧ (allowSeq (NewRateLimiter 1 ((5 : Nat) : Int) 0) ([0, 0, 1].take 3)).1.tokens
          ≤ ((5 : Nat) : ℚ)
      ∧ (allowSeq (NewRateLimiter 1 ((5 : Nat) : Int) 0) ([0, 0, 1].take 3)).1.maxTokens
          = ((5 : Nat) : ℚ) :=
  have hch : List.Chain (fun a b : ℚ => a ≤ b) 0 [0, 0, 1] := by
    simp
  ⟨zero_le_one, hch, tokens_between_zero_and_burst 1 5 0 [0, 0, 1] zero_le_one hch 3⟩

/-- C10: for a command of one of the ten wire-building types whose payload
decoded (`list_channels` needs none), sent for a user with a session, and with
`line` the line of the grammar: the registry is unchanged (the session stays);
if the limiter denies, `WriteLine` was called once, nothing was handed to the
transport and exactly one `irc:error` event with the rate-limit text is
published; if the limiter allows, exactly `line` is handed to the transport,
and an event is published only when the transport write fails (one `irc:error`
with that error). -/
theorem wire_command_written_or_rate_limited (env : Env) (cmd : Command) (w : World) (p : Nat)
    (sess : IRCSession)
    (hty : cmd.Type_ ∈ wireTypes) (hdata : cmd.Data = none → cmd.Type_ = lit "list_channels")
    (hs : w.sessions cmd.UserID = some p) (hp : w.heap[p]? = some sess) :
    ∃ line : GoString, wireLine cmd.Type_ cmd.Data = some line
      ∧ (handleCommand env cmd w).sessions = w.sessions
      ∧ ((sess.rateLimiter.Allow env.now).2 = false →
          (handleCommand env cmd w).heap = w.heap.set p
              { sess with rateLimiter := (sess.rateLimiter.Allow env.now).1,
                          writeLineCalls := sess.writeLineCalls ++ [line] }
            ∧ (handleCommand env cmd w).events
                = w.events ++ [errorEvent cmd.UserID rateLimitMessage])
      ∧ ((sess.rateLimiter.Allow env.now).2 = true →
          (handleCommand env cmd w).heap = w.heap.set p
              { sess with rateLimiter := (sess.rateLimiter.Allow env.now).1,
                          writeLineCalls := sess.writeLineCalls ++ [line],
                          written := sess.written ++ [line] }
            ∧ (handleCommand env cmd w).events = w.events ++
                (match env.writeErr with
                 | none => []
                 | some e => [errorEvent cmd.UserID e])) := by
  obtain ⟨line, hl⟩ := wireLine_some cmd.Type_ cmd.Data hty hdata
  have hc := wireLine_ne_connect _ _ _ hl
  refine ⟨line, hl, ?_, ?_, ?_⟩
  · rw [handleCommand_wire env cmd w p line hs hc hl]
    cases hallow : (sess.rateLimiter.Allow env.now).2 with
    | false => rw [writeOrError_denied env cmd.UserID p line w sess hp hallow]
    | true => rw [writeOrError_allowed env cmd.UserID p line w sess hp hallow]
  · intro hallow
    rw [handleCommand_wire env cmd w p line hs hc hl,
      writeOrError_denied env cmd.UserID p line w sess hp hallow]
    exact ⟨rfl, rfl⟩
  · intro hallow
    rw [handleCommand_wire env cmd w p line hs hc hl,
      writeOrError_allowed env cmd.UserID p line w sess hp hallow]
    exact ⟨rfl, rfl⟩

/-- C10 at the scenario of the specification: on a fresh session (burst 5) six
`send_message` commands with no time elapsed give five transport writes and no
event, then, for the sixth, one `irc:error` with the rate-limit text, no sixth
write, and the session still registered. -/
theorem wire_command_written_or_rate_limited_witness :
    sendHi.Type_ ∈ wireTypes
      ∧ (afterSends 5).events = []
      ∧ ((afterSends 5).heap[0]?).map IRCSession.written
          = some (List.replicate 5 (lit "PRIVMSG #go :hi"))
      ∧ (afterSends 6).events = [errorEvent 7 rateLimitMessage]
      ∧ ((afterSends 6).heap[0]?).map IRCSession.written
          = some (List.replicate 5 (lit "PRIVMSG #go :hi"))
      ∧ (afterSends 6).sessions 7 = some 0 := by
  have hty : sendHi.Type_ ∈ wireTypes := by decide
  have hdeny : (RateLimiter.Allow
      { tokens := 0, maxTokens := 5, refillRate := 1, lastRefill := 0 } (quietEnv 0).now).2
        = false := by
    simp only [RateLimiter.Allow, quietEnv]
    norm_num
  obtain ⟨line, _, hsess, hden, _⟩ :=
    wire_command_written_or_rate_limited (quietEnv 0) sendHi (afterSends 5) 0
      { newSession (quietEnv 0) 7 (lit "alice") (lit "alice") with
        rateLimiter := { tokens := 0, maxTokens := 5, refillRate := 1, lastRefill := 0 },
        writeLineCalls := List.replicate 5 (lit "PRIVMSG #go :hi"),
        written := List.replicate 5 (lit "PRIVMSG #go :hi") }
      hty (fun h => absurd h (by simp [sendHi]))
      (by rw [afterSends_five]; simp [sendHi]) (by rw [afterSends_five]; rfl)
  have h6 : afterSends 6 = handleCommand (quietEnv 0) sendHi (afterSends 5) := rfl
  have hd := hden hdeny
  refine ⟨hty, ?_, ?_, ?_, ?_, ?_⟩
  · rw [afterSends_five]
  · rw [afterSends_five]
    rfl
  · rw [h6, hd.2, afterSends_five]
    rfl
  · rw [h6, hd.1, afterSends_five]
    rfl
  · rw [h6, hsess, afterSends_five]
    simp

/-- C11: a command whose type is not `connect` and whose user id has no session
in the registry is dropped: whatever its type and payload, `handleCommand`
returns the state it was given, so it publishes no event, passes nothing to
`WriteLine` or to a transport, and leaves the registry unchanged. -/
theorem command_without_session_dropped (env : Env) (cmd : Command) (w : World)
    (hc : cmd.Type_ ≠ lit "connect") (hs : w.sessions cmd.UserID = none) :
    handleCommand env cmd w = w
      ∧ (handleCommand env cmd w).events = w.events
      ∧ (handleCommand env cmd w).heap = w.heap
      ∧ (handleCommand env cmd w).sessions = w.sessions := by
  have h : handleCommand env cmd w = w := by
    unfold handleCommand
    rw [if_neg hc]
    simp only [hs]
  rw [h]
  exact ⟨rfl, rfl, rfl, rfl⟩

/-- C11 at the scenario of the specification: a `join` of `#go` for user 7 when
no session exists for 7 (the initial state). -/
theorem command_without_session_dropped_witness :
    joinGo.Type_ ≠ lit "connect" ∧ World.init.sessions joinGo.UserID = none
      ∧ handleCommand (quietEnv 0) joinGo World.init = World.init
      ∧ (handleCommand (quietEnv 0) joinGo World.init).events = [] :=
  have hc : joinGo.Type_ ≠ lit "connect" := by decide
  ⟨hc, rfl, (command_without_session_dropped (quietEnv 0) joinGo World.init hc rfl).1,
    (command_without_session_dropped (quietEnv 0) joinGo World.init hc rfl).2.1⟩

/-- C12: an upstream message whose parameter list is shorter than its type
requires (`underLength`), or whose command is none of the handled types, makes
`handleIRCMessage` return without a panic and with the state it was given: no
event is published. -/
theorem short_or_unhandled_message_dropped (now : GoString) (userID : Int) (msg : Message)
    (w : World) (h : underLength msg ∨ msg.Command ∉ handledCommands) :
    handleIRCMessage now userID msg w = some w
      ∧ (handleIRCMessage now userID msg w).map World.events = some w.events := by
  have hw : handleIRCMessage now userID msg w = some w := by
    rcases h with h | h
    · exact handleIRCMessage_underLength now userID msg w h
    · exact handleIRCMessage_unhandled now userID msg w h
  rw [hw]
  exact ⟨rfl, rfl⟩

/-- C12 at a `PRIVMSG` with a single parameter. -/
theorem short_or_unhandled_message_dropped_witness :
    (underLength (upstream (lit "bob") (lit "PRIVMSG") [lit "#go"])
        ∨ (upstream (lit "bob") (lit "PRIVMSG") [lit "#go"]).Command ∉ handledCommands)
      ∧ handleIRCMessage [] 7 (upstream (lit "bob") (lit "PRIVMSG") [lit "#go"]) World.init
          = some World.init :=
  have h : underLength (upstream (lit "bob") (lit "PRIVMSG") [lit "#go"])
      ∨ (upstream (lit "bob") (lit "PRIVMSG") [lit "#go"]).Command ∉ handledCommands :=
    Or.inl (Or.inl ⟨Or.inl rfl, by decide⟩)
  ⟨h, (short_or_unhandled_message_dropped [] 7
    (upstream (lit "bob") (lit "PRIVMSG") [lit "#go"]) World.init h).1⟩

/-- C13: for every string `s`, `splitNames(s)` and `parseNames(s)` return, and
return the list obtained by splitting `s` at every space and dropping the empty
pieces (`spaceFields`); so no element is empty, no element contains a space,
and the elements joined with single spaces parse to the same list again. For a
`353` reply with at least 4 parameters the one event published is
`irc:nicklist` with the third parameter as channel and `parseNames` of the
fourth as names. -/
theorem parseNames_splits_at_spaces (s : GoString) :
    splitNames s = some (spaceFields s)
      ∧ parseNames s = some (spaceFields s)
      ∧ (∀ x ∈ spaceFields s, x ≠ [] ∧ 32 ∉ x)
      ∧ parseNames ([32].intercalate (spaceFields s)) = some (spaceFields s)
      ∧ (∀ (now : GoString) (userID : Int) (msg : Message) (w : World)
          (p0 p1 channel : GoString) (rest : List GoString),
          msg.Command = lit "353" → msg.Params = p0 :: p1 :: channel :: s :: rest →
          handleIRCMessage now userID msg w
            = some { w with events := w.events
                ++ [nicklistEvent userID channel (spaceFields s)] }) := by
  refine ⟨splitNames_eq s, parseNames_eq s, spaceFields_mem s, ?_, ?_⟩
  · rw [parseNames_eq, spaceFields_join _ (spaceFields_mem s)]
  · intro now userID msg w p0 p1 channel rest hc hp
    exact handleIRCMessage_names now userID msg w p0 p1 channel s rest hc hp

set_option maxRecDepth 100000 in
/-- C13 at the name list of the specification: `alice bob @carol` gives the
names `alice`, `bob`, `@carol`, in that order, and the `353` reply carrying it
for channel `#go` publishes them in `irc:nicklist`. -/
theorem parseNames_splits_at_spaces_witness :
    spaceFields (lit "alice bob @carol") = [lit "alice", lit "bob", lit "@carol"]
      ∧ parseNames (lit "alice bob @carol") = some [lit "alice", lit "bob", lit "@carol"]
      ∧ handleIRCMessage [] 7
          (upstream (lit "irc.example.com") (lit "353")
            [lit "alice", lit "=", lit "#go", lit "alice bob @carol"]) World.init
        = some { World.init with events := World.init.events
            ++ [nicklistEvent 7 (lit "#go") [lit "alice", lit "bob", lit "@carol"]] } := by
  have hsp : spaceFields (lit "alice bob @carol") = [lit "alice", lit "bob", lit "@carol"] := by
    rw [← scanWords_nil]
    decide
  have h := parseNames_splits_at_spaces (lit "alice bob @carol")
  refine ⟨hsp, ?_, ?_⟩
  · rw [h.2.1, hsp]
  · rw [h.2.2.2.2 [] 7 _ World.init (lit "alice") (lit "=") (lit "#go") [] rfl rfl, hsp]

/-- C14 (defect): a `PRIVMSG` whose text is the CTCP request `\x01VERSION\x01`,
which is not of the action form `\x01ACTION <body>\x01`, is published by
`handleIRCMessage` as `irc:action` with an empty message, not as `irc:message`
with the text unchanged: `isAction` tests the length and the two `\x01` bytes
only, never the word `ACTION`. -/
theorem ctcp_version_published_as_action (now : GoString) (userID : Int)
    (name target : GoString) (w : World) :
    (∀ body : GoString, 1 :: (lit "VERSION" ++ [1]) ≠ 1 :: (lit "ACTION " ++ body ++ [1]))
      ∧ handleIRCMessage now userID
          (upstream name (lit "PRIVMSG") [target, 1 :: (lit "VERSION" ++ [1])]) w
        = some { w with events := w.events
            ++ [chatEvent (lit "irc:action") now userID name target []] } := by
  constructor
  · intro body h
    have hv : lit "VERSION" = [86, 69, 82, 83, 73, 79, 78] := by decide
    have ha : lit "ACTION " = [65, 67, 84, 73, 79, 78, 32] := by decide
    rw [hv, ha] at h
    simp at h
  · rfl

/-- C15: for a `JOIN` with at least one parameter, `handleIRCMessage` publishes,
when the source name is empty, exactly two events, `irc:joined` with the channel
and then `irc:user_join` with the channel and the empty nick; when the source
name is not empty, exactly one event, `irc:user_join` with the channel (the
first parameter) and the source name as nick, and no `irc:joined`. -/
theorem join_events (now : GoString) (userID : Int) (msg : Message) (w : World)
    (channel : GoString) (rest : List GoString)
    (hc : msg.Command = lit "JOIN") (hp : msg.Params = channel :: rest) :
    (msg.Name = [] →
      handleIRCMessage now userID msg w = some { w with events := w.events ++
        [{ Type_ := lit "irc:joined", Data := some [(lit "channel", Value.str channel)],
           UserID := userID },
         { Type_ := lit "irc:user_join",
           Data := some [(lit "channel", Value.str channel), (lit "nick", Value.str [])],
           UserID := userID }] })
      ∧ (msg.Name ≠ [] →
        handleIRCMessage now userID msg w = some { w with events := w.events ++
          [{ Type_ := lit "irc:user_join",
             Data := some [(lit "channel", Value.str channel), (lit "nick", Value.str msg.Name)],
             UserID := userID }] }) := by
  have hP : msg.Command ≠ lit "PRIVMSG" := by
    rw [hc]
    decide
  have hlen : ¬ (channel :: rest).length < 1 := by simp
  have hi : goIndex (channel :: rest) 0 = some channel := by simp [goIndex]
  unfold handleIRCMessage
  rw [if_neg hP, if_pos hc, hp, if_neg hlen, hi]
  constructor
  · intro hn
    simp [hn, publishEvent]
  · intro hn
    simp [hn, publishEvent]

/-- C15 at our own join of `#go` (empty source name) and at the join of `bob`. -/
theorem join_events_witness :
    (handleIRCMessage [] 7 (upstream [] (lit "JOIN") [lit "#go"]) World.init).map World.events
        = some [{ Type_ := lit "irc:joined", Data := some [(lit "channel", Value.str (lit "#go"))],
                  UserID := 7 },
                { Type_ := lit "irc:user_join",
                  Data := some [(lit "channel", Value.str (lit "#go")), (lit "nick", Value.str [])],
                  UserID := 7 }]
      ∧ (handleIRCMessage [] 7 (upstream (lit "bob") (lit "JOIN") [lit "#go"]) World.init).map
          World.events
        = some [{ Type_ := lit "irc:user_join",
                  Data := some [(lit "channel", Value.str (lit "#go")),
                                (lit "nick", Value.str (lit "bob"))],
                  UserID := 7 }] := by
  constructor
  · rw [(join_events [] 7 (upstream [] (lit "JOIN") [lit "#go"]) World.init (lit "#go") []
      rfl rfl).1 rfl]
    rfl
  · rw [(join_events [] 7 (upstream (lit "bob") (lit "JOIN") [lit "#go"]) World.init (lit "#go") []
      rfl rfl).2 (by decide)]
    rfl

/-- C16 (defect): user 7 connects and then sends `disconnect`, which publishes
`irc:disconnected`, closes the transport and removes the registry entry. Closing
the transport makes the read loop of that session return an error, and its
failure exit, which consults neither the registry nor any once-only flag,
publishes `irc:error` as a second teardown event for the same session, leaving
the sessions and the registry as they were. The same two events are published
in the other order when the `disconnect` command is handled between the first
statement of the failure exit (the publish) and its cleanup. -/
theorem disconnect_then_failure_publishes_twice :
    (handleCommand (quietEnv 0) (disconnectOf 7) (afterSends 0)).sessions 7 = none
      ∧ (handleCommand (quietEnv 0) (disconnectOf 7) (afterSends 0)).events = [disconnectedEvent 7]
      ∧ (readLoopFail 0 (lit "use of closed network connection")
          (handleCommand (quietEnv 0) (disconnectOf 7) (afterSends 0))).events
        = [disconnectedEvent 7, errorEvent 7 (lit "use of closed network connection")]
      ∧ (readLoopFail 0 (lit "use of closed network connection")
          (handleCommand (quietEnv 0) (disconnectOf 7) (afterSends 0))).heap
        = (handleCommand (quietEnv 0) (disconnectOf 7) (afterSends 0)).heap
      ∧ (readLoopFail 0 (lit "use of closed network connection")
          (handleCommand (quietEnv 0) (disconnectOf 7) (afterSends 0))).sessions
        = (handleCommand (quietEnv 0) (disconnectOf 7) (afterSends 0)).sessions
      ∧ (readLoopFailDelete 0 (readLoopFailCancel 0 (readLoopFailClose 0
          (handleCommand (quietEnv 0) (disconnectOf 7)
            (readLoopFailPublish 0 (lit "EOF") (afterSends 0)))))).events
        = [errorEvent 7 (lit "EOF"), disconnectedEvent 7] := by
  have hs : (afterSends 0).sessions (disconnectOf 7).UserID = some 0 := by
    rw [afterSends_zero]
    simp [disconnectOf]
  have hp : (afterSends 0).heap[0]?
      = some (newSession (quietEnv 0) 7 (lit "alice") (lit "alice")) := by
    rw [afterSends_zero]
    rfl
  have hd := handleCommand_disconnect (quietEnv 0) (disconnectOf 7) (afterSends 0) 0 _ rfl hs hp
  have hev : (afterSends 0).events = [] := by rw [afterSends_zero]
  have hheap : (afterSends 0).heap = [newSession (quietEnv 0) 7 (lit "alice") (lit "alice")] := by
    rw [afterSends_zero]
  have hpub : readLoopFailPublish 0 (lit "EOF") (afterSends 0)
      = { afterSends 0 with events := [errorEvent 7 (lit "EOF")] } := by
    simp only [readLoopFailPublish, hp, publishEvent, hev]
    rfl
  have hd2 := handleCommand_disconnect (quietEnv 0) (disconnectOf 7)
    { afterSends 0 with events := [errorEvent 7 (lit "EOF")] } 0 _ rfl hs hp
  have hf := readLoopFail_eq 0 (lit "use of closed network connection")
    { heap := [newSession (quietEnv 0) 7 (lit "alice") (lit "alice")].set 0
        { newSession (quietEnv 0) 7 (lit "alice") (lit "alice") with
          cancelled := true, connClosed := true },
      sessions := Function.update (afterSends 0).sessions (disconnectOf 7).UserID none,
      events := [] ++ [disconnectedEvent (disconnectOf 7).UserID] }
    { newSession (quietEnv 0) 7 (lit "alice") (lit "alice") with
      cancelled := true, connClosed := true } rfl
  refine ⟨?_, ?_, ?_, ?_, ?_, ?_⟩
  · rw [hd]
    simp [disconnectOf]
  · rw [hd, hev]
    rfl
  · rw [hd, hev, hheap, hf]
    rfl
  · rw [hd, hev, hheap, hf]
    rfl
  · rw [hd, hev, hheap, hf]
    simp [newSession, disconnectOf]
  · rw [hpub, hd2, hheap]
    simp [readLoopFailDelete, readLoopFailCancel, readLoopFailClose, disconnectOf]

/-- C17: for a command of a user with a session, `handleCommand` makes exactly one
`WriteLine` call whose line is fixed by the grammar: with the payload decoded to
`d`, `join` gives `JOIN <channel>`; `part` gives `PART <channel>`, followed by
` :<message>` exactly when the message is not empty; `send_message` gives
`PRIVMSG <target> :<message>`; `change_nick` gives `NICK <nick>`; `set_topic`
gives `TOPIC <channel>`, followed by ` :<topic>` exactly when the topic is not
empty; `kick` gives `KICK <channel> <nick>`, followed by ` :<reason>` exactly
when the reason is not empty; `invite` gives `INVITE <nick> <channel>`; `whois`
gives `WHOIS <nick>`; `get_nicklist` gives `NAMES <channel>`; and `list_channels`
gives `LIST` whatever the payload. A command of any other type except `connect`
and `disconnect` changes nothing: no `WriteLine` call, no event. -/
theorem wire_grammar_one_call (env : Env) (cmd : Command) (w : World) (p : Nat)
    (sess : IRCSession)
    (hs : w.sessions cmd.UserID = some p) (hp : w.heap[p]? = some sess) :
    (∀ d : Fields, cmd.Data = some d →
      (cmd.Type_ = lit "join" → oneWriteLine env cmd w p sess (lit "JOIN " ++ d.Channel))
      ∧ (cmd.Type_ = lit "part" → oneWriteLine env cmd w p sess
          (if d.Message = [] then lit "PART " ++ d.Channel
           else lit "PART " ++ d.Channel ++ lit " :" ++ d.Message))
      ∧ (cmd.Type_ = lit "send_message" → oneWriteLine env cmd w p sess
          (lit "PRIVMSG " ++ d.Target ++ lit " :" ++ d.Message))
      ∧ (cmd.Type_ = lit "change_nick" → oneWriteLine env cmd w p sess (lit "NICK " ++ d.Nick))
      ∧ (cmd.Type_ = lit "set_topic" → oneWriteLine env cmd w p sess
          (if d.Topic = [] then lit "TOPIC " ++ d.Channel
           else lit "TOPIC " ++ d.Channel ++ lit " :" ++ d.Topic))
      ∧ (cmd.Type_ = lit "kick" → oneWriteLine env cmd w p sess
          (if d.Reason = [] then lit "KICK " ++ d.Channel ++ lit " " ++ d.Nick
           else lit "KICK " ++ d.Channel ++ lit " " ++ d.Nick ++ lit " :" ++ d.Reason))
      ∧ (cmd.Type_ = lit "invite" → oneWriteLine env cmd w p sess
          (lit "INVITE " ++ d.Nick ++ lit " " ++ d.Channel))
      ∧ (cmd.Type_ = lit "whois" → oneWriteLine env cmd w p sess (lit "WHOIS " ++ d.Nick))
      ∧ (cmd.Type_ = lit "get_nicklist" → oneWriteLine env cmd w p sess
          (lit "NAMES " ++ d.Channel)))
      ∧ (cmd.Type_ = lit "list_channels" → oneWriteLine env cmd w p sess (lit "LIST"))
      ∧ (cmd.Type_ ∉ wireTypes → cmd.Type_ ≠ lit "connect" → cmd.Type_ ≠ lit "disconnect" →
          handleCommand env cmd w = w) := by
  have key : ∀ line, wireLine cmd.Type_ cmd.Data = some line →
      oneWriteLine env cmd w p sess line :=
    fun line hl => oneWriteLine_of_wireLine env cmd w p sess line hs hp hl
  refine ⟨?_, ?_, handleCommand_unknown env cmd w⟩
  · intro d hd
    obtain ⟨g1, g2, g3, g4, g5, g6, g7, g8, _, g10⟩ := wireLine_grammar d cmd.Data
    refine ⟨?_, ?_, ?_, ?_, ?_, ?_, ?_, ?_, ?_⟩ <;> intro ht <;> apply key <;> rw [ht, hd]
    · exact g1
    · exact g2
    · exact g3
    · exact g4
    · exact g5
    · exact g6
    · exact g7
    · exact g8
    · exact g10
  · intro ht
    apply key
    rw [ht]
    exact (wireLine_grammar noFields cmd.Data).2.2.2.2.2.2.2.2.1

/-- C17 at `sendHi` (`hi` to `#go`) right after user 7 connected: the one
`WriteLine` call carries `PRIVMSG #go :hi`. -/
theorem wire_grammar_one_call_witness :
    (afterSends 0).sessions sendHi.UserID = some 0
      ∧ (afterSends 0).heap[0]? = some (newSession (quietEnv 0) 7 (lit "alice") (lit "alice"))
      ∧ oneWriteLine (quietEnv 0) sendHi (afterSends 0) 0
          (newSession (quietEnv 0) 7 (lit "alice") (lit "alice")) (lit "PRIVMSG #go :hi") := by
  have hs : (afterSends 0).sessions sendHi.UserID = some 0 := by
    rw [afterSends_zero]
    simp [sendHi]
  have hp : (afterSends 0).heap[0]?
      = some (newSession (quietEnv 0) 7 (lit "alice") (lit "alice")) := by
    rw [afterSends_zero]
    rfl
  have hl : lit "PRIVMSG " ++ lit "#go" ++ lit " :" ++ lit "hi" = lit "PRIVMSG #go :hi" := by
    decide
  have h := ((wire_grammar_one_call (quietEnv 0) sendHi (afterSends 0) 0
    (newSession (quietEnv 0) 7 (lit "alice") (lit "alice")) hs hp).1
      { noFields with Target := lit "#go", Message := lit "hi" } rfl).2.2.1 rfl
  rw [← hl]
  exact ⟨hs, hp, h⟩

set_option maxRecDepth 100000 in
/-- C18, as stated, fails in the program's float64 arithmetic: a limiter with
burst 1 and the rate `34482758.62068965` (the float64 value
`4628197517241379 / 2 ^ 27`) is created at clock reading 0 and called at 0 and
at 29 nanoseconds. The first call is admitted and leaves no token; at the
second the product of the elapsed `2.9e-8` seconds and the rate, which is below
1, rounds to exactly 1, so the second call is admitted as well: two admitted
calls in a run lasting `T = 29 / 10 ^ 9` seconds, although
`burst + rate * T < 2`. -/
theorem float64_rounding_admits_call_above_bound :
    ((NewRateLimiter64 ⟨4628197517241379, -27⟩ 1 0).Allow 0).2 = true
      ∧ ((NewRateLimiter64 ⟨4628197517241379, -27⟩ 1 0).Allow 0).1.tokens = ⟨0, 0⟩
      ∧ F64.mul (Seconds (timeSub 29 0)) ⟨4628197517241379, -27⟩ = float64 1
      ∧ (((NewRateLimiter64 ⟨4628197517241379, -27⟩ 1 0).Allow 0).1.Allow 29).2 = true
      ∧ (0 : ℚ) ≤ F64.toRat ⟨4628197517241379, -27⟩
      ∧ ((1 : Int) : ℚ) + F64.toRat ⟨4628197517241379, -27⟩ * (29 / 1000000000) < 2 := by
  refine ⟨by decide, by decide, by decide, by decide, ?_, ?_⟩
  · norm_num [F64.toRat]
  · norm_num [F64.toRat]

/-- C18, amended: flood bound in exact arithmetic. A limiter made by
`NewRateLimiter(rate, burst)` with rate ≥ 0 is called at clock readings that, starting from the creation time,
never decrease; the calls are `pre`, then the run `a :: rest`, then `post`. The
number of calls of the run that answer `true` is at most `burst + rate * T`,
where `T` is the time from the first reading of the run (`a`) to its last
(`rest.getLastD a`). Holds for every burst count; with rate 1 and burst 5 the
bound is `5 + T`. -/
theorem flood_bound (rate : ℚ) (burst : Nat) (t0 : ℚ) (pre : List ℚ) (a : ℚ)
    (rest post : List ℚ) (hrate : 0 ≤ rate)
    (hmono : List.Chain (fun x y => x ≤ y) t0 (pre ++ a :: (rest ++ post))) :
    (((((allowSeq (NewRateLimiter rate (burst : Int) t0) (pre ++ a :: (rest ++ post))).2.drop
        pre.length).take (rest.length + 1)).count true : Nat) : ℚ)
      ≤ (burst : ℚ) + rate * (rest.getLastD a - a) := by
  have h := run_count_le_from pre a rest post (NewRateLimiter rate (burst : Int) t0)
    (by simp [NewRateLimiter]) (by simp [NewRateLimiter])
    (by simpa [NewRateLimiter] using hrate) (by simpa [NewRateLimiter] using hmono)
  simpa [NewRateLimiter] using h

/-- C18 at the default limiter (rate 1, burst 5) created at time 0 and called
once at time 0, then six times at time 10, twice at time 11 and once at time
12: the run from the first call at time 10 to the last call at time 11 lasts
one second and admits exactly `5 + 1` calls, so the bound is attained. -/
theorem flood_bound_witness :
    (0 : ℚ) ≤ 1
      ∧ List.Chain (fun x y : ℚ => x ≤ y) 0 ([0] ++ 10 :: ([10, 10, 10, 10, 10, 11, 11] ++ [12]))
      ∧ (((((allowSeq (NewRateLimiter 1 ((5 : Nat) : Int) 0)
              ([0] ++ 10 :: ([10, 10, 10, 10, 10, 11, 11] ++ [12]))).2.drop
            [(0 : ℚ)].length).take
              ([(10 : ℚ), 10, 10, 10, 10, 11, 11].length + 1)).count true : Nat) : ℚ)
          ≤ ((5 : Nat) : ℚ) + 1 * (([10, 10, 10, 10, 10, 11, 11] : List ℚ).getLastD 10 - 10)
      ∧ ((((allowSeq (NewRateLimiter 1 ((5 : Nat) : Int) 0)
              ([0] ++ 10 :: ([10, 10, 10, 10, 10, 11, 11] ++ [12]))).2.drop
            [(0 : ℚ)].length).take
              ([(10 : ℚ), 10, 10, 10, 10, 11, 11].length + 1)).count true = 6)
      ∧ ((5 : Nat) : ℚ) + 1 * (([10, 10, 10, 10, 10, 11, 11] : List ℚ).getLastD 10 - 10) = 6 := by
  have hch : List.Chain (fun x y : ℚ => x ≤ y) 0
      ([0] ++ 10 :: ([10, 10, 10, 10, 10, 11, 11] ++ [12])) := by
    simp
    norm_num
  refine ⟨zero_le_one, hch,
    flood_bound 1 5 0 [0] 10 [10, 10, 10, 10, 10, 11, 11] [12] zero_le_one hch, ?_, ?_⟩
  · simp [allowSeq, RateLimiter.Allow, NewRateLimiter]
    norm_num
  · norm_num

/-- C19 (defect): user 7 connects twice, so the session at position 1 has
replaced the session at position 0 in the registry; when the read loop of the
older session takes its failure exit, `delete(sessions, userID)` removes the
entry of the newer session: user 7 has no registry entry afterwards, although
the newer session is neither cancelled nor closed. -/
theorem stale_failure_exit_unregisters_newer_session :
    afterReconnect.sessions 7 = some 1
      ∧ (afterReconnect.heap[1]?).map (fun s => (s.UserID, s.cancelled, s.connClosed))
          = some (7, false, false)
      ∧ (readLoopFail 0 (lit "EOF") afterReconnect).sessions 7 = none
      ∧ ((readLoopFail 0 (lit "EOF") afterReconnect).heap[1]?).map
            (fun s => (s.cancelled, s.connClosed))
          = some (false, false) := by
  simp [afterReconnect, createAll, createSession, quietEnv, World.init, newSession,
    readLoopFail, readLoopFailDelete, readLoopFailCancel, readLoopFailClose,
    readLoopFailPublish, publishEvent]

/-- C20: a denied attempt costs nothing. For a limiter whose capacity is at least
1: if `Allow` at `t1` answers `false`, then a following `Allow` at `t2` gives the
same answer and leaves the same limiter (tokens, `lastRefill` and the rest) as a
single `Allow` at `t2` on the original limiter. This holds for all readings
`t1`, `t2` and every refill rate, in particular for
`lastRefill ≤ t1 ≤ t2` and a rate ≥ 0. -/
theorem denied_call_costs_nothing (r : RateLimiter) (t1 t2 : ℚ) (hmax : 1 ≤ r.maxTokens)
    (hdeny : (r.Allow t1).2 = false) :
    (r.Allow t1).1.Allow t2 = r.Allow t2 := by
  have hlt : min r.maxTokens (r.tokens + (t1 - r.lastRefill) * r.refillRate) < 1 := by
    by_contra hge
    have hge1 : min r.maxTokens (r.tokens + (t1 - r.lastRefill) * r.refillRate) ≥ 1 :=
      not_lt.1 hge
    have : (r.Allow t1).2 = true := by
      unfold RateLimiter.Allow
      simp only [hge1, if_true]
    rw [this] at hdeny
    exact absurd hdeny (by decide)
  have hx : r.tokens + (t1 - r.lastRefill) * r.refillRate < r.maxTokens := by
    by_contra hnot
    have hle : r.maxTokens ≤ r.tokens + (t1 - r.lastRefill) * r.refillRate := not_lt.1 hnot
    rw [min_eq_left hle] at hlt
    linarith
  have hmin : min r.maxTokens (r.tokens + (t1 - r.lastRefill) * r.refillRate)
      = r.tokens + (t1 - r.lastRefill) * r.refillRate := min_eq_right (le_of_lt hx)
  have hnot : ¬ (min r.maxTokens (r.tokens + (t1 - r.lastRefill) * r.refillRate) ≥ 1) :=
    not_le.2 hlt
  have h1 : r.Allow t1
      = ({ r with tokens := r.tokens + (t1 - r.lastRefill) * r.refillRate, lastRefill := t1 },
          false) := by
    have hnot1 : ¬ (r.tokens + (t1 - r.lastRefill) * r.refillRate ≥ 1) := by
      rw [hmin] at hnot
      exact hnot
    unfold RateLimiter.Allow
    simp only [hmin, hnot1, if_false]
  have hsum : r.tokens + (t1 - r.lastRefill) * r.refillRate + (t2 - t1) * r.refillRate
      = r.tokens + (t2 - r.lastRefill) * r.refillRate := by ring
  rw [h1]
  unfold RateLimiter.Allow
  simp only [hsum]

/-- C20 at the default limiter emptied at time 0: denied at time 1/2, then asked
at time 2. -/
theorem denied_call_costs_nothing_witness :
    (1 : ℚ) ≤ 5
      ∧ (RateLimiter.Allow { tokens := 0, maxTokens := 5, refillRate := 1, lastRefill := 0 }
          (1 / 2)).2 = false
      ∧ (RateLimiter.Allow { tokens := 0, maxTokens := 5, refillRate := 1, lastRefill := 0 }
          (1 / 2)).1.Allow 2
        = RateLimiter.Allow { tokens := 0, maxTokens := 5, refillRate := 1, lastRefill := 0 } 2 :=
  have hmax : (1 : ℚ) ≤ 5 := by norm_num
  have hdeny : (RateLimiter.Allow
      { tokens := 0, maxTokens := 5, refillRate := 1, lastRefill := 0 } (1 / 2)).2 = false := by
    simp only [RateLimiter.Allow]
    norm_num
  ⟨hmax, hdeny, denied_call_costs_nothing
    { tokens := 0, maxTokens := 5, refillRate := 1, lastRefill := 0 } (1 / 2) 2 hmax hdeny⟩

end Gateway
